import Mathlib

/-!
# ProductScraper: the extraction pipeline of `script.js`

A shallow embedding of the product-extraction core of `script.js`
(`parseProductsFromHTML`, `extractProductFromElement`,
`extractTextFromSelectors`, `parsePrice`, `parseRating`) and of the star
display `generateStars`, together with the
parts of the browser platform these functions call (strings, numbers,
`parseFloat`, the DOM tree and selector matching).

Modelling conventions.

* A JavaScript string is a list of characters (`JSString`).
* A JavaScript number is `NaN`, an infinity, or a finite binary64 value, given
  by its exact rational value; `parseFloat`, the division and the subtraction
  round to the nearest binary64 value, ties to even (`binary64`). The sign of
  zero is not represented.
* A character is a Unicode code point; every pattern of the source tests
  characters of the Basic Multilingual Plane only, so reading a string by code
  points or by UTF-16 code units gives the same results.
* `null` / `undefined` are `Option.none`.
* A function that can throw returns `Except`.
-/

namespace ProductScraper

/-! ## Strings -/

/-- A JavaScript string, as the list of its characters. -/
abbrev JSString := List Char

/-- The characters removed by `String.prototype.trim` and skipped by
`parseFloat`: ECMAScript `WhiteSpace` and `LineTerminator`. -/
def isJSWhiteSpace (c : Char) : Bool :=
  let n := c.toNat
  n == 0x09 || n == 0x0A || n == 0x0B || n == 0x0C || n == 0x0D || n == 0x20
    || n == 0xA0 || n == 0x1680 || (0x2000 ≤ n && n ≤ 0x200A)
    || n == 0x2028 || n == 0x2029 || n == 0x202F || n == 0x205F
    || n == 0x3000 || n == 0xFEFF

/-- Drop the white space at the start of a string. -/
def trimStart (s : JSString) : JSString :=
  s.dropWhile isJSWhiteSpace

/-- Drop the white space at the end of a string. -/
def trimEnd (s : JSString) : JSString :=
  (s.reverse.dropWhile isJSWhiteSpace).reverse

/-- The method `String.prototype.trim`. -/
def trim (s : JSString) : JSString :=
  trimEnd (trimStart s)

/-! ## Numbers -/

/-- A JavaScript number: `NaN`, an infinity, or a finite value given by its
exact rational value. -/
inductive JSNumber where
  | nan
  | inf (negative : Bool)
  | num (q : ℚ)
  deriving DecidableEq

/-- The power `2 ^ k` for an integer exponent. -/
def pow2 (k : ℤ) : ℚ :=
  if 0 ≤ k then ((2 ^ k.toNat : ℕ) : ℚ) else 1 / ((2 ^ (-k).toNat : ℕ) : ℚ)

/-- The binary logarithm of a natural number, rounded down, computed by
halving at most `fuel` times. -/
def natLog2Aux : ℕ → ℕ → ℕ
  | 0, _ => 0
  | fuel + 1, n => if n < 2 then 0 else natLog2Aux fuel (n / 2) + 1

/-- The binary logarithm of a natural number, rounded down (`0` for `0`). -/
def natLog2 (n : ℕ) : ℕ :=
  natLog2Aux n n

/-- The binary exponent of a positive rational: the `e` with
`2 ^ e ≤ x < 2 ^ (e + 1)`. -/
def binaryExponent (x : ℚ) : ℤ :=
  if pow2 ((natLog2 x.num.toNat : ℤ) - (natLog2 x.den : ℤ)) ≤ x then
    (natLog2 x.num.toNat : ℤ) - (natLog2 x.den : ℤ)
  else (natLog2 x.num.toNat : ℤ) - (natLog2 x.den : ℤ) - 1

/-- Rounding of a real to the nearest integer, ties to the even one. -/
def roundHalfEven (m : ℚ) : ℤ :=
  if m - ⌊m⌋ < 1 / 2 then ⌊m⌋
  else if 1 / 2 < m - ⌊m⌋ then ⌊m⌋ + 1
  else if ⌊m⌋ % 2 = 0 then ⌊m⌋ else ⌊m⌋ + 1

/-- The binary64 value nearest to a non-negative rational, ties to even: a
multiple of the unit in the last place `2 ^ (max e (-1022) - 52)`, where `e`
is the binary exponent; `none` when the rounded value is out of range. -/
def roundNonneg (x : ℚ) : Option ℚ :=
  if x = 0 then some 0
  else if (roundHalfEven (x / pow2 (max (binaryExponent x) (-1022) - 52)) : ℚ)
      * pow2 (max (binaryExponent x) (-1022) - 52) < pow2 1024 then
    some ((roundHalfEven (x / pow2 (max (binaryExponent x) (-1022) - 52)) : ℚ)
      * pow2 (max (binaryExponent x) (-1022) - 52))
  else none

/-- The Number value of a real: the nearest binary64 value, an infinity when
the rounded value is out of range. -/
def binary64 (x : ℚ) : JSNumber :=
  if 0 ≤ x then
    match roundNonneg x with
    | some y => JSNumber.num y
    | none => JSNumber.inf false
  else
    match roundNonneg (-x) with
    | some y => JSNumber.num (-y)
    | none => JSNumber.inf true

namespace JSNumber

/-- The function `isNaN` on a number. -/
def isNaN : JSNumber → Bool
  | nan => true
  | _ => false

/-- Truthiness of a number (`ToBoolean`): false for zero and `NaN`. -/
def toBoolean : JSNumber → Bool
  | nan => false
  | inf _ => true
  | num q => decide (q ≠ 0)

/-- The comparison `x <= c` against a finite constant `c`. -/
def leConst : JSNumber → ℚ → Bool
  | nan, _ => false
  | inf negative, _ => negative
  | num q, c => decide (q ≤ c)

/-- The quotient `x / c` by a positive finite constant `c`, rounded to
binary64. -/
def divConst : JSNumber → ℚ → JSNumber
  | nan, _ => nan
  | inf negative, _ => inf negative
  | num q, c => binary64 (q / c)

end JSNumber

/-- The value of a run of decimal digits. -/
def digitsValue (ds : JSString) : ℕ :=
  ds.foldl (fun n c => 10 * n + (c.toNat - 48)) 0

/-- The optional `ExponentPart` of a `StrDecimalLiteral`: the exponent read at
the start of `s`, or `0` when `s` does not start with a complete exponent. -/
def exponentPart (s : JSString) : ℤ :=
  match s with
  | c :: r =>
    if c = 'e' ∨ c = 'E' then
      match r with
      | '+' :: ds =>
        if (ds.takeWhile Char.isDigit).isEmpty then 0
        else (digitsValue (ds.takeWhile Char.isDigit) : ℤ)
      | '-' :: ds =>
        if (ds.takeWhile Char.isDigit).isEmpty then 0
        else - (digitsValue (ds.takeWhile Char.isDigit) : ℤ)
      | ds =>
        if (ds.takeWhile Char.isDigit).isEmpty then 0
        else (digitsValue (ds.takeWhile Char.isDigit) : ℤ)
    else 0
  | [] => 0

/-- The unsigned part of `parseFloat`: the Number value of the longest prefix
of `u` that is a `StrUnsignedDecimalLiteral`, or `NaN` when there is none. The
sign already read is `negative`. The mathematical value of the literal is
rounded to the nearest binary64 value, whatever the number of its digits. -/
def parseUnsigned (negative : Bool) (u : JSString) : JSNumber :=
  if "Infinity".toList.isPrefixOf u then JSNumber.inf negative
  else
    let ip := u.takeWhile Char.isDigit
    let r := u.dropWhile Char.isDigit
    let fp := match r with
      | '.' :: f => f.takeWhile Char.isDigit
      | _ => []
    let rest := match r with
      | '.' :: f => f.dropWhile Char.isDigit
      | _ => r
    if ip.isEmpty && fp.isEmpty then JSNumber.nan
    else
      let v : ℚ := (digitsValue (ip ++ fp) : ℚ) / (10 : ℚ) ^ fp.length
        * (10 : ℚ) ^ exponentPart rest
      binary64 (if negative then -v else v)

/-- The global function `parseFloat` on a string: skip leading white space,
read an optional sign, then the longest decimal literal. -/
def parseFloat (s : JSString) : JSNumber :=
  match trimStart s with
  | '+' :: u => parseUnsigned false u
  | '-' :: u => parseUnsigned true u
  | u => parseUnsigned false u

/-! ## Field parsers -/

/-- `priceText.replace(/[^\d.,]/g, '')`: keep the digits, periods and commas. -/
def keepPriceChars (s : JSString) : JSString :=
  s.filter (fun c => c.isDigit || c == '.' || c == ',')

/-- `cleanPrice.replace(',', '')`: a string pattern replaces its first
occurrence only. -/
def replaceFirstComma (s : JSString) : JSString :=
  s.erase ','

/-- The method `parsePrice`. -/
def parsePrice (priceText : Option JSString) : JSNumber :=
  match priceText with
  | none => JSNumber.num 0
  | some [] => JSNumber.num 0
  | some text =>
    let cleanPrice := keepPriceChars text
    let price := parseFloat (replaceFirstComma cleanPrice)
    if price.isNaN then JSNumber.num 0 else price

/-- `ratingText.match(/(\d+\.?\d*)/)`: the leftmost match of one or more digits,
an optional period, and any further digits; `none` when the text has no digit. -/
def matchNumber (s : JSString) : Option JSString :=
  match s.dropWhile (fun c => !c.isDigit) with
  | [] => none
  | t =>
    let ip := t.takeWhile Char.isDigit
    match t.dropWhile Char.isDigit with
    | '.' :: f => some (ip ++ '.' :: f.takeWhile Char.isDigit)
    | _ => some ip

/-- `(ratingText.match(/★/g) || []).length`: the number of filled stars. -/
def countStars (s : JSString) : ℕ :=
  s.count '★'

/-- The method `parseRating`. -/
def parseRating (ratingText : Option JSString) : JSNumber :=
  match ratingText with
  | none => JSNumber.num 0
  | some [] => JSNumber.num 0
  | some text =>
    match matchNumber text with
    | some m =>
      let rating := parseFloat m
      if rating.leConst 5 then rating else rating.divConst 10
    | none =>
      let stars := countStars text
      if stars > 0 then JSNumber.num stars else JSNumber.num 0

/-! ## The DOM tree -/

/-- A node of a DOM tree: a text node, a comment, or an element with its
(lower-case) local name, its attributes and its child nodes. -/
inductive Node where
  | text (data : JSString)
  | comment (data : JSString)
  | element (tag : JSString) (attrs : List (JSString × JSString)) (children : List Node)

/-- A parsed document: its mode, its child nodes, and the resolution of a URL
attribute against the document base URL (which returns the attribute value
itself when the value cannot be resolved). -/
structure Document where
  quirks : Bool
  children : List Node
  resolveURL : JSString → JSString

/-- An element built from string literals. -/
def el (tag : String) (attrs : List (String × String)) (children : List Node) : Node :=
  Node.element tag.toList (attrs.map (fun a => (a.1.toList, a.2.toList))) children

/-- A text node built from a string literal. -/
def txt (data : String) : Node :=
  Node.text data.toList

mutual
/-- The property `textContent` of a node: the data of its text descendants,
concatenated in tree order. -/
def Node.textContent : Node → JSString
  | Node.text data => data
  | Node.comment _ => []
  | Node.element _ _ children => textContentOfList children
/-- The `textContent` of a list of sibling nodes. -/
def textContentOfList : List Node → JSString
  | [] => []
  | n :: ns => n.textContent ++ textContentOfList ns
end

mutual
/-- An element followed by its descendant elements, in tree order; nothing for
a node that is not an element. -/
def Node.inclusiveDescendantElements : Node → List Node
  | Node.element tag attrs children =>
    Node.element tag attrs children :: elementsOfList children
  | _ => []
/-- The elements among a list of sibling nodes and their descendants, in tree
order. -/
def elementsOfList : List Node → List Node
  | [] => []
  | n :: ns => n.inclusiveDescendantElements ++ elementsOfList ns
end

/-- The descendant elements of a node, in tree order, the node itself excluded. -/
def Node.descendantElements : Node → List Node
  | Node.element _ _ children => elementsOfList children
  | _ => []

/-- The method `getAttribute`. -/
def Node.getAttribute (n : Node) (name : JSString) : Option JSString :=
  match n with
  | Node.element _ attrs _ => attrs.lookup name
  | _ => none

/-- The local name of an element. -/
def Node.tagName : Node → Option JSString
  | Node.element tag _ _ => some tag
  | _ => none

/-! ## Selectors -/

/-- The compound selectors used by the scraper. -/
inductive Selector where
  /-- A type selector such as `h1`. -/
  | tag (name : String)
  /-- A class selector such as `.price`. -/
  | cls (name : String)
  /-- An attribute-presence selector such as `[data-price]`. -/
  | attr (name : String)
  /-- An attribute-value selector such as `[data-component-type="s-search-result"]`. -/
  | attrEq (name value : String)
  /-- A type selector with an attribute-presence selector, such as `a[title]`. -/
  | tagAttr (tag name : String)
  deriving DecidableEq

/-- ASCII white space, which separates the tokens of a `class` attribute. -/
def isAsciiWhiteSpace (c : Char) : Bool :=
  c == '\t' || c == '\n' || c == '\x0c' || c == '\r' || c == ' '

/-- The class names of an element: the tokens of its `class` attribute. -/
def Node.classList (n : Node) : List JSString :=
  match n.getAttribute "class".toList with
  | some v => (v.splitOnP isAsciiWhiteSpace).filter (fun t => !t.isEmpty)
  | none => []

/-- Comparison of a class name with the name in a selector: ASCII
case-insensitive in a quirks-mode document, exact otherwise. -/
def classNameMatches (quirks : Bool) (selectorName className : JSString) : Bool :=
  if quirks then selectorName.map Char.toLower == className.map Char.toLower
  else selectorName == className

/-- Whether an element of the document matches a selector. -/
def Selector.isMatchedBy (doc : Document) (sel : Selector) (n : Node) : Bool :=
  match sel with
  | Selector.tag name => n.tagName == some name.toList
  | Selector.cls name => n.classList.any (classNameMatches doc.quirks name.toList)
  | Selector.attr name => (n.getAttribute name.toList).isSome
  | Selector.attrEq name value => n.getAttribute name.toList == some value.toList
  | Selector.tagAttr t name =>
    n.tagName == some t.toList && (n.getAttribute name.toList).isSome

/-- The method `doc.querySelectorAll(selector)`: the elements of the document
that match, in document order. -/
def Document.querySelectorAll (doc : Document) (sel : Selector) : List Node :=
  (elementsOfList doc.children).filter (sel.isMatchedBy doc)

/-- The method `element.querySelector(selector)`: the first descendant of the
element that matches, in tree order. -/
def Node.querySelector (doc : Document) (element : Node) (sel : Selector) : Option Node :=
  element.descendantElements.find? (sel.isMatchedBy doc)

/-! ## The element extractor -/

/-- The record built for one product container. `name` is `none` for `null`,
`imageUrl` is `none` when the property was never assigned. -/
structure Product where
  sourceUrl : JSString
  name : Option JSString
  price : JSNumber
  rating : JSNumber
  imageUrl : Option JSString
  description : JSString
  category : JSString
  deriving DecidableEq

/-- Truthiness of a string or `null`: false for `null` and the empty string. -/
def isTruthyString : Option JSString → Bool
  | none => false
  | some s => !s.isEmpty

/-- The method `extractTextFromSelectors`. -/
def extractTextFromSelectors (doc : Document) (element : Node) :
    List Selector → Option JSString
  | [] => none
  | selector :: selectors =>
    match element.querySelector doc selector with
    | some foundElement =>
      if !(trim foundElement.textContent).isEmpty then some (trim foundElement.textContent)
      else extractTextFromSelectors doc element selectors
    | none => extractTextFromSelectors doc element selectors

/-- The list `nameSelectors` of `extractProductFromElement`. -/
def nameSelectors : List Selector :=
  [.tag "h1", .tag "h2", .tag "h3", .cls "title", .cls "name", .cls "product-title",
   .cls "product-name", .attr "data-product-title", .tagAttr "a" "title",
   .cls "card-title", .cls "item-title"]

/-- The list `priceSelectors` of `extractProductFromElement`. -/
def priceSelectors : List Selector :=
  [.cls "price", .cls "cost", .cls "amount", .attr "data-price",
   .cls "price-current", .cls "sale-price", .cls "regular-price",
   .cls "money", .cls "currency", .cls "product-price"]

/-- The list `ratingSelectors` of `extractProductFromElement`. -/
def ratingSelectors : List Selector :=
  [.cls "rating", .cls "stars", .cls "review-score", .attr "data-rating",
   .cls "star-rating", .cls "product-rating"]

/-- The list `descSelectors` of `extractProductFromElement`. -/
def descSelectors : List Selector :=
  [.cls "description", .cls "summary", .cls "excerpt", .cls "product-description"]

/-- The property `src` of an image element: empty without a `src` attribute,
otherwise the attribute resolved against the document. -/
def imageSrc (doc : Document) (img : Node) : JSString :=
  match img.getAttribute "src".toList with
  | some v => doc.resolveURL v
  | none => []

/-- The expression `imgElement.src || imgElement.dataset.src || ''`. -/
def imageUrlOf (doc : Document) (img : Node) : JSString :=
  if !(imageSrc doc img).isEmpty then imageSrc doc img
  else
    match img.getAttribute "data-src".toList with
    | some v => if !v.isEmpty then v else []
    | none => []

/-- The method `extractProductFromElement`. Every operation in its `try` block
is total on an element, so the `catch` branch (which returns `null`) is not
reached and the result is always a record. -/
def extractProductFromElement (doc : Document) (element : Node) (sourceUrl : JSString) :
    Option Product :=
  let name := extractTextFromSelectors doc element nameSelectors
  let priceText := extractTextFromSelectors doc element priceSelectors
  let price := parsePrice priceText
  let ratingText := extractTextFromSelectors doc element ratingSelectors
  let rating := if (parseRating ratingText).toBoolean then parseRating ratingText
    else JSNumber.num 0
  let imageUrl := (element.querySelector doc (.tag "img")).map (imageUrlOf doc)
  let description := match extractTextFromSelectors doc element descSelectors with
    | some d => d
    | none => "No description available".toList
  some { sourceUrl := sourceUrl, name := name, price := price, rating := rating,
         imageUrl := imageUrl, description := description,
         category := "Scraped Product".toList }

/-! ## The document scanner -/

/-- The list `productSelectors` of `parseProductsFromHTML`, in source order
(`.product-card` occurs twice). -/
def productSelectors : List Selector :=
  [.cls "product-item", .cls "product-card", .cls "product", .cls "item",
   .attr "data-product", .cls "product-tile", .cls "product-container",
   .attrEq "data-component-type" "s-search-result",
   .cls "s-result-item", .cls "product-item-container",
   .cls "product-card", .cls "grid-product__content",
   .cls "woocommerce-loop-product__title",
   .cls "card", .cls "listing-item"]

/-- The condition `product && product.name && product.price`. -/
def isAccepted : Option Product → Bool
  | none => false
  | some product => isTruthyString product.name && product.price.toBoolean

/-- One call of the `forEach` callback of `parseProductsFromHTML`: the products
array after the element at position `index` has been visited. -/
def visitElement (doc : Document) (sourceUrl : JSString) (products : List Product)
    (index : ℕ) (element : Node) : List Product :=
  if index < 20 then
    match extractProductFromElement doc element sourceUrl with
    | some product =>
      if isAccepted (some product) then products ++ [product] else products
    | none => products
  else products

/-- The call `elements.forEach(...)` of `parseProductsFromHTML`, started on the
products array `products`. -/
def forEachElement (doc : Document) (sourceUrl : JSString) (elements : List Node)
    (products : List Product) : List Product :=
  elements.enum.foldl (fun acc ie => visitElement doc sourceUrl acc ie.1 ie.2) products

/-- The loop `for (const selector of productSelectors)` of
`parseProductsFromHTML`, started on the products array `products`; the result
is the array after the loop. -/
def scanSelectors (doc : Document) (sourceUrl : JSString) :
    List Selector → List Product → List Product
  | [], products => products
  | selector :: selectors, products =>
    let elements := doc.querySelectorAll selector
    if elements.length > 0 then
      let products := forEachElement doc sourceUrl elements products
      if products.length > 0 then products
      else scanSelectors doc sourceUrl selectors products
    else scanSelectors doc sourceUrl selectors products

/-! ## The pipeline -/

/-- An exception value. -/
structure JSError where
  message : JSString
  deriving DecidableEq

/-- Equality of results is decidable when equality of errors and of values is. -/
instance decEqExcept {ε α : Type} [DecidableEq ε] [DecidableEq α] : DecidableEq (Except ε α) :=
  fun a b =>
    match a, b with
    | Except.ok x, Except.ok y =>
      if h : x = y then isTrue (by rw [h]) else isFalse (fun e => h (Except.ok.inj e))
    | Except.error x, Except.error y =>
      if h : x = y then isTrue (by rw [h]) else isFalse (fun e => h (Except.error.inj e))
    | Except.ok _, Except.error _ => isFalse (fun e => Except.noConfusion e)
    | Except.error _, Except.ok _ => isFalse (fun e => Except.noConfusion e)

/-- The method `parseProductsFromHTML`. The platform parser
`new DOMParser().parseFromString(html, 'text/html')` is the parameter
`parseFromString`; an exception raised in the `try` block is caught and the
method then returns the empty array. -/
def parseProductsFromHTML (parseFromString : JSString → Except JSError Document)
    (html sourceUrl : JSString) : Except JSError (List Product) :=
  match parseFromString html with
  | Except.ok doc => Except.ok (scanSelectors doc sourceUrl productSelectors [])
  | Except.error _ => Except.ok []

/-! ## The star display -/

namespace JSNumber

/-- The function `Math.floor`. -/
def floor : JSNumber → JSNumber
  | nan => nan
  | inf negative => inf negative
  | num q => num (⌊q⌋ : ℤ)

/-- The integer part of a rational, rounded towards zero. -/
def truncate (q : ℚ) : ℤ :=
  if 0 ≤ q then ⌊q⌋ else ⌈q⌉

/-- The remainder `x % 1`; it has the sign of `x`. -/
def remOne : JSNumber → JSNumber
  | nan => nan
  | inf _ => nan
  | num q => num (q - (truncate q : ℤ))

/-- The comparison `x >= c` against a finite constant `c`. -/
def geConst : JSNumber → ℚ → Bool
  | nan, _ => false
  | inf negative, _ => !negative
  | num q, c => decide (c ≤ q)

/-- The difference `x - y`, rounded to binary64. -/
def sub : JSNumber → JSNumber → JSNumber
  | nan, _ => nan
  | _, nan => nan
  | inf a, inf b => if a = b then nan else inf a
  | inf a, num _ => inf a
  | num _, inf b => inf (!b)
  | num x, num y => binary64 (x - y)

end JSNumber

/-- The method `String.prototype.repeat`: the count is truncated to an integer
(`NaN` counts as `0`), and a negative or infinite count throws a `RangeError`. -/
def repeatString (s : JSString) (count : JSNumber) : Except JSError JSString :=
  match count with
  | JSNumber.nan => Except.ok []
  | JSNumber.inf _ => Except.error { message := "Invalid count value".toList }
  | JSNumber.num q =>
    if JSNumber.truncate q < 0 then
      Except.error { message := "Invalid count value".toList }
    else Except.ok (List.replicate (JSNumber.truncate q).toNat s).flatten

/-- The constant `fullStars` of `generateStars`. -/
def fullStars (rating : JSNumber) : JSNumber :=
  rating.floor

/-- The constant `hasHalfStar` of `generateStars`. -/
def hasHalfStar (rating : JSNumber) : Bool :=
  rating.remOne.geConst 0.5

/-- The constant `emptyStars` of `generateStars`. -/
def emptyStars (rating : JSNumber) : JSNumber :=
  ((JSNumber.num 5).sub (fullStars rating)).sub
    (if hasHalfStar rating then JSNumber.num 1 else JSNumber.num 0)

/-- The method `generateStars`. -/
def generateStars (rating : JSNumber) : Except JSError JSString := do
  let filled ← repeatString ['★'] (fullStars rating)
  let half := if hasHalfStar rating then ['☆'] else []
  let hollow ← repeatString ['☆'] (emptyStars rating)
  pure (filled ++ half ++ hollow)

end ProductScraper

/-! # Properties of the extraction pipeline -/

namespace ProductScraper

/-! ## Vocabulary of the statements -/

/-- The record the scan keeps for one container element: the extracted
record when it passes the name and price filter, nothing otherwise. -/
def acceptedRecord (doc : Document) (sourceUrl : JSString) (element : Node) :
    Option Product :=
  (extractProductFromElement doc element sourceUrl).filter (fun p => isAccepted (some p))

/-- The records a container pattern yields: the kept records of its first 20
matched elements, in document order. -/
def recordsOf (doc : Document) (sourceUrl : JSString) (sel : Selector) : List Product :=
  ((doc.querySelectorAll sel).take 20).filterMap (acceptedRecord doc sourceUrl)

/-- The price parser as the specification words it: delete every character
that is not a digit, comma or period, delete every comma, parse what remains
as a decimal number; `0` for an empty or absent text and for a parse that is
not a number. -/
def parsePriceAsSpecified (priceText : Option JSString) : JSNumber :=
  match priceText with
  | none => JSNumber.num 0
  | some [] => JSNumber.num 0
  | some text =>
    let price := parseFloat ((keepPriceChars text).filter (fun c => c != ','))
    if price.isNaN then JSNumber.num 0 else price

/-- The mathematical value of a decimal token with integer digits `ip` and
fraction digits `fp`. -/
def decimalValue (ip fp : JSString) : ℚ :=
  (digitsValue (ip ++ fp) : ℚ) / (10 : ℚ) ^ fp.length

/-- The first decimal-number token of a text, as the specification words it:
the first run of ASCII digits, with the digits that follow a period right
after the run; the integer digits and the fraction digits are returned.
`none` when the text has no digit. -/
def firstDecimalToken (s : JSString) : Option (JSString × JSString) :=
  match s.dropWhile (fun c => !c.isDigit) with
  | [] => none
  | t =>
    match t.dropWhile Char.isDigit with
    | '.' :: f => some (t.takeWhile Char.isDigit, f.takeWhile Char.isDigit)
    | _ => some (t.takeWhile Char.isDigit, [])

/-- The rating parser as the specification words it: `0` for an empty or
absent text; with a decimal token, the Number value `v` of the first one when
`v ≤ 5` and the quotient `v / 10` otherwise; without one, the number of filled
stars. -/
def parseRatingAsSpecified (ratingText : Option JSString) : JSNumber :=
  match ratingText with
  | none => JSNumber.num 0
  | some [] => JSNumber.num 0
  | some text =>
    match firstDecimalToken text with
    | some (ip, fp) =>
      if (binary64 (decimalValue ip fp)).leConst 5 then binary64 (decimalValue ip fp)
      else (binary64 (decimalValue ip fp)).divConst 10
    | none => JSNumber.num (countStars text)

/-- Whether a number is at least zero (`NaN` is not). -/
def JSNumber.isNonNegative : JSNumber → Bool
  | JSNumber.nan => false
  | JSNumber.inf negative => !negative
  | JSNumber.num q => decide (0 ≤ q)

/-- Whether a rating text stays within the scales the rating parser assumes:
its first decimal token is at most 50, or it has no decimal token and at most
five filled stars. An absent text does. -/
def ratingWithinScale : Option JSString → Bool
  | none => true
  | some text =>
    match firstDecimalToken text with
    | some (ip, fp) => decide (decimalValue ip fp ≤ 50)
    | none => decide (countStars text ≤ 5)

/-- The trimmed texts of the descendants of a container that match a pattern,
in tree order. -/
def matchingTexts (doc : Document) (element : Node) (sel : Selector) : List JSString :=
  (element.descendantElements.filter (sel.isMatchedBy doc)).map
    (fun found => trim found.textContent)

/-- The text a pattern contributes to `extractTextFromSelectors`: the trimmed
text of the first descendant that matches the pattern, when that text is not
empty. -/
def firstMatchText (doc : Document) (element : Node) (sel : Selector) : Option JSString :=
  (matchingTexts doc element sel).head?.filter (fun t => !t.isEmpty)

/-- The text extraction as the specification words it: the patterns are tried
in listed order, and a pattern gives the first non-empty trimmed text among
all the descendants that match it. -/
def extractTextAsSpecified (doc : Document) (element : Node) (selectors : List Selector) :
    Option JSString :=
  selectors.findSome? (fun sel => (matchingTexts doc element sel).find? (fun t => !t.isEmpty))

/-- The `.product-card` elements of a document, in document order. -/
def productCards (doc : Document) : List Node :=
  doc.querySelectorAll (Selector.cls "product-card")

/-- A product card as the specification describes it: it contains an `h3` with
non-empty text, a `.price` element with the text `$19.99`, and no element
matching a rating pattern. -/
def cardAsDescribed (doc : Document) (card : Node) : Prop :=
  (∃ t ∈ matchingTexts doc card (Selector.tag "h3"), t ≠ [])
    ∧ "$19.99".toList ∈ matchingTexts doc card (Selector.cls "price")
    ∧ ∀ sel ∈ ratingSelectors, matchingTexts doc card sel = []

/-- The description of a product card is decidable. -/
instance decCardAsDescribed (doc : Document) (card : Node) :
    Decidable (cardAsDescribed doc card) := by
  unfold cardAsDescribed
  infer_instance

/-- A product card whose first matches are as described: its first `h3` has
non-empty text, its first `.price` element has the text `$19.99`, and no
element matches a rating pattern. -/
def cardFirstMatches (doc : Document) (card : Node) : Prop :=
  firstMatchText doc card (Selector.tag "h3") ≠ none
    ∧ firstMatchText doc card (Selector.cls "price") = some "$19.99".toList
    ∧ ∀ sel ∈ ratingSelectors, matchingTexts doc card sel = []

/-- The description by first matches is decidable. -/
instance decCardFirstMatches (doc : Document) (card : Node) :
    Decidable (cardFirstMatches doc card) := by
  unfold cardFirstMatches
  infer_instance

/-! ## Sample inputs -/

/-- A source identifier. -/
def sampleUrl : JSString := "https://shop.example/list".toList

/-- The body of a page: a `.product-item` tile without heading or price,
followed by a `.product-card` tile with a heading and a price. -/
def fallthroughDoc : Document :=
  { quirks := false
    children :=
      [el "html" []
        [el "head" [] [],
         el "body" []
          [el "div" [("class", "product-item")] [el "span" [] [txt "Coming soon"]],
           el "div" [("class", "product-card")]
            [el "h3" [] [txt "Lamp"], el "span" [("class", "price")] [txt "$19.99"]]]]]
    resolveURL := id }

/-- The HTML text of `fallthroughDoc`. -/
def fallthroughHtml : JSString :=
  ("<!DOCTYPE html><html><head></head><body>" ++
   "<div class=\"product-item\"><span>Coming soon</span></div>" ++
   "<div class=\"product-card\"><h3>Lamp</h3><span class=\"price\">$19.99</span></div>" ++
   "</body></html>").toList

/-- The record extracted from the `.product-card` tile of `fallthroughDoc`. -/
def lampRecord : Product :=
  { sourceUrl := sampleUrl
    name := some "Lamp".toList
    price := binary64 19.99
    rating := JSNumber.num 0
    imageUrl := none
    description := "No description available".toList
    category := "Scraped Product".toList }

/-- A page with one `.product-item` tile whose rating text is a percentage. -/
def ratingDoc : Document :=
  { quirks := false
    children :=
      [el "html" []
        [el "head" [] [],
         el "body" []
          [el "div" [("class", "product-item")]
            [el "h3" [] [txt "Lamp"],
             el "span" [("class", "price")] [txt "$19.99"],
             el "span" [("class", "rating")] [txt "95% positive"]]]]]
    resolveURL := id }

/-- The HTML text of `ratingDoc`. -/
def ratingHtml : JSString :=
  ("<!DOCTYPE html><html><head></head><body>" ++
   "<div class=\"product-item\"><h3>Lamp</h3><span class=\"price\">$19.99</span>" ++
   "<span class=\"rating\">95% positive</span></div>" ++
   "</body></html>").toList

/-- The record extracted from the tile of `ratingDoc`. -/
def ratedRecord : Product :=
  { sourceUrl := sampleUrl
    name := some "Lamp".toList
    price := binary64 19.99
    rating := JSNumber.num 9.5
    imageUrl := none
    description := "No description available".toList
    category := "Scraped Product".toList }

/-- A page document with the given body children. -/
def pageOf (body : List Node) : Document :=
  { quirks := false
    children := [el "html" [] [el "head" [] [], el "body" [] body]]
    resolveURL := id }

/-- A `.product-card` tile with a heading and a price, without rating markup
and without image. -/
def cardTile (name : String) : Node :=
  el "div" [("class", "product-card")]
    [el "h3" [] [txt name], el "span" [("class", "price")] [txt "$19.99"]]

/-- The record extracted from `cardTile name`. -/
def cardRecord (name : String) : Product :=
  { sourceUrl := sampleUrl
    name := some name.toList
    price := binary64 19.99
    rating := JSNumber.num 0
    imageUrl := none
    description := "No description available".toList
    category := "Scraped Product".toList }

/-- The end-to-end page of the specification: three `.product-card` tiles. -/
def threeCardsDoc : Document :=
  pageOf [cardTile "Lamp", cardTile "Desk", cardTile "Chair"]

/-- The HTML text of `threeCardsDoc`. -/
def threeCardsHtml : JSString :=
  ("<!DOCTYPE html><html><head></head><body>" ++
   "<div class=\"product-card\"><h3>Lamp</h3><span class=\"price\">$19.99</span></div>" ++
   "<div class=\"product-card\"><h3>Desk</h3><span class=\"price\">$19.99</span></div>" ++
   "<div class=\"product-card\"><h3>Chair</h3><span class=\"price\">$19.99</span></div>" ++
   "</body></html>").toList

/-- A `.product-card` tile whose `.price` element with the text `$19.99` comes
after another `.price` element. -/
def twoPricesTile : Node :=
  el "div" [("class", "product-card")]
    [el "h3" [] [txt "Lamp"],
     el "span" [("class", "price")] [txt "$24.99"],
     el "span" [("class", "price")] [txt "$19.99"]]

/-- A page with the tile `twoPricesTile`. -/
def twoPricesDoc : Document :=
  pageOf [twoPricesTile]

/-- The HTML text of `twoPricesDoc`. -/
def twoPricesHtml : JSString :=
  ("<!DOCTYPE html><html><head></head><body>" ++
   "<div class=\"product-card\"><h3>Lamp</h3><span class=\"price\">$24.99</span>" ++
   "<span class=\"price\">$19.99</span></div>" ++
   "</body></html>").toList

/-- A `.product-card` tile whose heading with text comes after an empty
heading. -/
def twoHeadingsTile : Node :=
  el "div" [("class", "product-card")]
    [el "h3" [] [],
     el "h3" [] [txt "Lamp"],
     el "span" [("class", "price")] [txt "$19.99"]]

/-- A page with the tile `twoHeadingsTile`. -/
def twoHeadingsDoc : Document :=
  pageOf [twoHeadingsTile]

/-- The HTML text of `twoHeadingsDoc`. -/
def twoHeadingsHtml : JSString :=
  ("<!DOCTYPE html><html><head></head><body>" ++
   "<div class=\"product-card\"><h3></h3><h3>Lamp</h3>" ++
   "<span class=\"price\">$19.99</span></div>" ++
   "</body></html>").toList

/-- A page without `.product-card` and `.product-item` elements, with one
`.product` tile. -/
def productOnlyDoc : Document :=
  pageOf
    [el "div" [("class", "product")]
      [el "h3" [] [txt "Lamp"], el "span" [("class", "price")] [txt "$19.99"]]]

/-- The HTML text of `productOnlyDoc`. -/
def productOnlyHtml : JSString :=
  ("<!DOCTYPE html><html><head></head><body>" ++
   "<div class=\"product\"><h3>Lamp</h3><span class=\"price\">$19.99</span></div>" ++
   "</body></html>").toList

/-- A tile whose first image has neither a `src` nor a `data-src` attribute. -/
def bareImageTile : Node :=
  el "div" [("class", "product-card")]
    [el "h3" [] [txt "Lamp"], el "span" [("class", "price")] [txt "$19.99"],
     el "img" [("alt", "Lamp")] []]

/-- A page without any product container. -/
def plainDoc : Document :=
  { quirks := false
    children := [el "html" [] [el "head" [] [], el "body" [] [el "p" [] [txt "Nothing here"]]]]
    resolveURL := id }

/-- The HTML text of `plainDoc`. -/
def plainHtml : JSString :=
  "<!DOCTYPE html><html><head></head><body><p>Nothing here</p></body></html>".toList

/-- A platform parser that yields the given document for every text. -/
def parserReturning (doc : Document) : JSString → Except JSError Document :=
  fun _ => Except.ok doc

/-- A platform parser that throws on every text. -/
def failingParser : JSString → Except JSError Document :=
  fun _ => Except.error { message := "parse failure".toList }

/-! ## Lemmas on strings and numbers -/

theorem trim_trim (s : JSString) : trim (trim s) = trim s := by
  unfold trim trimEnd trimStart
  generalize hu : s.dropWhile isJSWhiteSpace = u
  have ht : (u.reverse.dropWhile isJSWhiteSpace).reverse = u.rdropWhile isJSWhiteSpace := rfl
  rw [ht]
  generalize htdef : u.rdropWhile isJSWhiteSpace = t
  have h1 : t.dropWhile isJSWhiteSpace = t := by
    cases hc : t with
    | nil => rfl
    | cons a r =>
      have hp : t <+: u := htdef ▸ List.rdropWhile_prefix isJSWhiteSpace u
      obtain ⟨w, hw⟩ := hp
      rw [hc] at hw
      have hnot : isJSWhiteSpace a = false := by
        have := List.head?_dropWhile_not isJSWhiteSpace s
        rw [hu, ← hw] at this
        simpa using this
      simp [List.dropWhile_cons, hnot]
  rw [h1]
  show t.rdropWhile isJSWhiteSpace = t
  rw [← htdef]
  exact List.rdropWhile_idempotent _ _

theorem pow2_eq_zpow (k : ℤ) : pow2 k = (2 : ℚ) ^ k := by
  unfold pow2
  split
  · next h =>
    obtain ⟨n, rfl⟩ := Int.eq_ofNat_of_zero_le h
    simp
  · next h =>
    obtain ⟨n, hn⟩ := Int.eq_ofNat_of_zero_le (show 0 ≤ -k by omega)
    have hk : k = -(n : ℤ) := by omega
    subst hk
    simp

theorem pow2_pos (k : ℤ) : 0 < pow2 k := by
  rw [pow2_eq_zpow]
  positivity

theorem pow2_le_pow2 {a b : ℤ} (h : a ≤ b) : pow2 a ≤ pow2 b := by
  rw [pow2_eq_zpow, pow2_eq_zpow]
  exact zpow_le_zpow_right₀ (by norm_num) h

theorem natLog2Aux_spec : ∀ (fuel n : ℕ), n ≤ fuel → n ≠ 0 →
    2 ^ natLog2Aux fuel n ≤ n ∧ n < 2 ^ (natLog2Aux fuel n + 1) := by
  intro fuel
  induction fuel with
  | zero => intro n h h0; omega
  | succ f ih =>
    intro n h h0
    unfold natLog2Aux
    by_cases h2 : n < 2
    · simp only [h2, if_true]
      constructor <;> simp <;> omega
    · simp only [h2, if_false]
      have hhalf := ih (n / 2) (by omega) (by omega)
      obtain ⟨hl, hu⟩ := hhalf
      constructor
      · rw [pow_succ]; omega
      · rw [pow_succ]; omega

theorem natLog2_spec (n : ℕ) (h : n ≠ 0) :
    2 ^ natLog2 n ≤ n ∧ n < 2 ^ (natLog2 n + 1) :=
  natLog2Aux_spec n n (le_refl n) h

theorem pow2_binaryExponent_le (x : ℚ) (hx : 0 < x) : pow2 (binaryExponent x) ≤ x := by
  unfold binaryExponent
  split
  · next h => exact h
  · have hnum : 0 < x.num := Rat.num_pos.mpr hx
    obtain ⟨a, ha⟩ := Int.eq_ofNat_of_zero_le (le_of_lt hnum)
    have ha0 : a ≠ 0 := by
      intro h0; rw [h0] at ha; omega
    have hden : x.den ≠ 0 := x.den_nz
    obtain ⟨hla, _⟩ := natLog2_spec a ha0
    obtain ⟨_, hub⟩ := natLog2_spec x.den hden
    have hxeq : x = (a : ℚ) / (x.den : ℚ) := by
      have h1 : ((x.num : ℚ)) / (x.den : ℚ) = x := Rat.num_div_den x
      rw [ha, Int.cast_natCast] at h1
      exact h1.symm
    rw [ha]
    simp only [Int.toNat_ofNat]
    rw [pow2_eq_zpow]
    have hsplit : (2 : ℚ) ^ ((natLog2 a : ℤ) - (natLog2 x.den : ℤ) - 1)
        = (2 : ℚ) ^ natLog2 a / (2 : ℚ) ^ (natLog2 x.den + 1) := by
      rw [show ((natLog2 a : ℤ) - (natLog2 x.den : ℤ) - 1)
        = (natLog2 a : ℤ) - ((natLog2 x.den + 1 : ℕ) : ℤ) by push_cast; ring]
      rw [zpow_sub₀ (by norm_num), zpow_natCast, zpow_natCast]
    rw [hsplit]
    have hdpos : (0 : ℚ) < (x.den : ℚ) := by exact_mod_cast Nat.pos_of_ne_zero hden
    have h1 : (2 : ℚ) ^ natLog2 a ≤ (a : ℚ) := by exact_mod_cast hla
    have h2 : (x.den : ℚ) ≤ (2 : ℚ) ^ (natLog2 x.den + 1) := by exact_mod_cast le_of_lt hub
    calc (2 : ℚ) ^ natLog2 a / (2 : ℚ) ^ (natLog2 x.den + 1)
        ≤ (a : ℚ) / (2 : ℚ) ^ (natLog2 x.den + 1) := by
          apply div_le_div_of_nonneg_right h1; positivity
      _ ≤ (a : ℚ) / (x.den : ℚ) := by
          apply div_le_div_of_nonneg_left (by positivity) hdpos h2
      _ = x := hxeq.symm

theorem roundHalfEven_nonneg (m : ℚ) (h : 0 ≤ m) : 0 ≤ roundHalfEven m := by
  have hf : 0 ≤ ⌊m⌋ := Int.floor_nonneg.mpr h
  unfold roundHalfEven
  split
  · exact hf
  · split
    · omega
    · split <;> omega

theorem roundHalfEven_le_of_le_intCast (m : ℚ) (M : ℤ) (h : m ≤ (M : ℚ)) :
    roundHalfEven m ≤ M := by
  have hfm : (⌊m⌋ : ℚ) ≤ m := Int.floor_le m
  have hf : ⌊m⌋ ≤ M := by
    have : (⌊m⌋ : ℚ) ≤ (M : ℚ) := le_trans hfm h
    exact_mod_cast this
  have hstep : ¬ (m - ⌊m⌋ < 1 / 2) → ⌊m⌋ + 1 ≤ M := by
    intro hnot
    have hlt : (⌊m⌋ : ℚ) < (M : ℚ) := by
      have : (⌊m⌋ : ℚ) < m := by linarith
      exact lt_of_lt_of_le this h
    have : ⌊m⌋ < M := by exact_mod_cast hlt
    omega
  unfold roundHalfEven
  split
  · exact hf
  · next hnot =>
    split
    · exact hstep hnot
    · split
      · exact hf
      · exact hstep hnot

theorem roundNonneg_nonneg (x y : ℚ) (hx : 0 ≤ x) (h : roundNonneg x = some y) : 0 ≤ y := by
  unfold roundNonneg at h
  split at h
  · have := Option.some.inj h
    rw [← this]
  · split at h
    · have := Option.some.inj h
      rw [← this]
      have hp := pow2_pos (max (binaryExponent x) (-1022) - 52)
      have hm : 0 ≤ x / pow2 (max (binaryExponent x) (-1022) - 52) :=
        div_nonneg hx (le_of_lt hp)
      have hn : (0 : ℚ) ≤ (roundHalfEven (x / pow2 (max (binaryExponent x) (-1022) - 52)) : ℚ) := by
        exact_mod_cast roundHalfEven_nonneg _ hm
      exact mul_nonneg hn (le_of_lt hp)
    · simp at h

theorem roundNonneg_le_natCast (x : ℚ) (c : ℕ) (hx : 0 ≤ x) (hxc : x ≤ (c : ℚ))
    (hc : (c : ℚ) < pow2 53) :
    ∃ y, roundNonneg x = some y ∧ 0 ≤ y ∧ y ≤ (c : ℚ) := by
  by_cases h0 : x = 0
  · refine ⟨0, by simp [roundNonneg, h0], le_refl _, by positivity⟩
  · have hpos : 0 < x := lt_of_le_of_ne hx (Ne.symm h0)
    have he : binaryExponent x ≤ 52 := by
      by_contra hcon
      have h53 : (53 : ℤ) ≤ binaryExponent x := by omega
      have := pow2_le_pow2 h53
      have := pow2_binaryExponent_le x hpos
      linarith
    generalize hk : max (binaryExponent x) (-1022) - 52 = k
    have hk0 : k ≤ 0 := by omega
    obtain ⟨j, hj⟩ := Int.eq_ofNat_of_zero_le (show 0 ≤ -k by omega)
    have hpk : pow2 k * ((2 ^ j : ℕ) : ℚ) = 1 := by
      rw [pow2_eq_zpow, show k = -(j : ℤ) by omega]
      simp
    have hp := pow2_pos k
    have hJ : (0 : ℚ) < ((2 ^ j : ℕ) : ℚ) := by positivity
    have hdiv : x / pow2 k = x * ((2 ^ j : ℕ) : ℚ) := by
      field_simp
      rw [mul_assoc, mul_comm ((2 : ℚ) ^ j), ← Nat.cast_ofNat, ← Nat.cast_pow, hpk, mul_one]
    have hM : x / pow2 k ≤ (((c * 2 ^ j : ℕ) : ℤ) : ℚ) := by
      rw [hdiv]
      push_cast
      exact mul_le_mul_of_nonneg_right hxc (by positivity)
    have hn := roundHalfEven_le_of_le_intCast _ _ hM
    have hy : (roundHalfEven (x / pow2 k) : ℚ) * pow2 k ≤ (c : ℚ) := by
      have h1 : (roundHalfEven (x / pow2 k) : ℚ) ≤ (((c * 2 ^ j : ℕ) : ℤ) : ℚ) := by
        exact_mod_cast hn
      calc (roundHalfEven (x / pow2 k) : ℚ) * pow2 k
          ≤ (((c * 2 ^ j : ℕ) : ℤ) : ℚ) * pow2 k :=
            mul_le_mul_of_nonneg_right h1 (le_of_lt hp)
        _ = (c : ℚ) * (pow2 k * ((2 ^ j : ℕ) : ℚ)) := by push_cast; ring
        _ = (c : ℚ) := by rw [hpk, mul_one]
    have hlt : (roundHalfEven (x / pow2 k) : ℚ) * pow2 k < pow2 1024 := by
      have : pow2 53 ≤ pow2 1024 := pow2_le_pow2 (by norm_num)
      linarith
    have hval : roundNonneg x = some ((roundHalfEven (x / pow2 k) : ℚ) * pow2 k) := by
      unfold roundNonneg
      rw [hk]
      simp [h0, hlt]
    exact ⟨_, hval, roundNonneg_nonneg x _ hx hval, hy⟩

theorem binary64_of_nonneg (x : ℚ) (hx : 0 ≤ x) :
    binary64 x = JSNumber.inf false ∨ ∃ y, binary64 x = JSNumber.num y ∧ 0 ≤ y := by
  unfold binary64
  simp only [hx, if_true]
  cases h : roundNonneg x with
  | none => exact Or.inl rfl
  | some y => exact Or.inr ⟨y, rfl, roundNonneg_nonneg x y hx h⟩

theorem binary64_le_natCast (x : ℚ) (c : ℕ) (hx : 0 ≤ x) (hxc : x ≤ (c : ℚ))
    (hc : (c : ℚ) < pow2 53) :
    ∃ y, binary64 x = JSNumber.num y ∧ 0 ≤ y ∧ y ≤ (c : ℚ) := by
  obtain ⟨y, hy, h0, hle⟩ := roundNonneg_le_natCast x c hx hxc hc
  refine ⟨y, ?_, h0, hle⟩
  unfold binary64
  simp [hx, hy]

theorem roundHalfEven_intCast (z : ℤ) : roundHalfEven (z : ℚ) = z := by
  unfold roundHalfEven
  simp

theorem roundNonneg_natCast (c : ℕ) (hc : (c : ℚ) < pow2 53) :
    roundNonneg (c : ℚ) = some (c : ℚ) := by
  by_cases h0 : (c : ℚ) = 0
  · simp [roundNonneg, h0]
  · have hpos : (0 : ℚ) < (c : ℚ) := lt_of_le_of_ne (by positivity) (Ne.symm h0)
    have he : binaryExponent (c : ℚ) ≤ 52 := by
      by_contra hcon
      have h53 : (53 : ℤ) ≤ binaryExponent (c : ℚ) := by omega
      have := pow2_le_pow2 h53
      have := pow2_binaryExponent_le (c : ℚ) hpos
      linarith
    generalize hk : max (binaryExponent (c : ℚ)) (-1022) - 52 = k
    have hk0 : k ≤ 0 := by omega
    obtain ⟨j, hj⟩ := Int.eq_ofNat_of_zero_le (show 0 ≤ -k by omega)
    have hpk : pow2 k * ((2 ^ j : ℕ) : ℚ) = 1 := by
      rw [pow2_eq_zpow, show k = -(j : ℤ) by omega]
      simp
    have hp := pow2_pos k
    have hdiv : (c : ℚ) / pow2 k = (((c * 2 ^ j : ℕ) : ℤ) : ℚ) := by
      rw [div_eq_iff (ne_of_gt hp)]
      push_cast
      rw [mul_assoc, mul_comm ((2 : ℚ) ^ j), ← Nat.cast_ofNat, ← Nat.cast_pow, hpk, mul_one]
    have hy : (roundHalfEven ((c : ℚ) / pow2 k) : ℚ) * pow2 k = (c : ℚ) := by
      rw [hdiv, roundHalfEven_intCast, ← hdiv]
      field_simp
    have hlt : (c : ℚ) < pow2 1024 := by
      have : pow2 53 ≤ pow2 1024 := pow2_le_pow2 (by norm_num)
      linarith
    unfold roundNonneg
    rw [hk, hy]
    simp [h0, hlt]

theorem binary64_natCast (c : ℕ) (hc : (c : ℚ) < pow2 53) :
    binary64 (c : ℚ) = JSNumber.num (c : ℚ) := by
  unfold binary64
  have h0 : (0 : ℚ) ≤ (c : ℚ) := by positivity
  simp [h0, roundNonneg_natCast c hc]

theorem isDigit_bounds (c : Char) (h : c.isDigit = true) : 48 ≤ c.toNat ∧ c.toNat ≤ 57 := by
  simp only [Char.isDigit, Bool.and_eq_true, decide_eq_true_eq] at h
  exact ⟨h.1, h.2⟩

theorem isDigit_mem (c : Char) (h : c.isDigit = true) : c ∈ "0123456789".toList := by
  have hb := isDigit_bounds c h
  have : c = Char.ofNat c.toNat := by simp
  rw [this]
  obtain ⟨h1, h2⟩ := hb
  generalize c.toNat = n at h1 h2
  interval_cases n <;> decide

theorem isDigit_facts (c : Char) (h : c.isDigit = true) :
    isJSWhiteSpace c = false ∧ c ≠ '+' ∧ c ≠ '-' ∧ c ≠ 'I' ∧ c ≠ '.' ∧ c ≠ ',' := by
  have key : ∀ d ∈ "0123456789".toList,
      isJSWhiteSpace d = false ∧ d ≠ '+' ∧ d ≠ '-' ∧ d ≠ 'I' ∧ d ≠ '.' ∧ d ≠ ',' := by
    decide
  exact key c (isDigit_mem c h)

theorem infinity_isPrefixOf_eq_false (a : Char) (l : JSString) (ha : a ≠ 'I') :
    "Infinity".toList.isPrefixOf (a :: l) = false := by
  have : "Infinity".toList = 'I' :: "nfinity".toList := rfl
  rw [this, List.isPrefixOf]
  simp [Ne.symm ha]

theorem takeWhile_digits_append (ip tail : JSString) (hip : ∀ c ∈ ip, c.isDigit = true) :
    (ip ++ tail).takeWhile Char.isDigit = ip ++ tail.takeWhile Char.isDigit := by
  induction ip with
  | nil => rfl
  | cons a r ih =>
    have ha := hip a (List.mem_cons_self _ _)
    simp [List.takeWhile_cons, ha, ih (fun c hc => hip c (List.mem_cons_of_mem _ hc))]

theorem dropWhile_digits_append (ip tail : JSString) (hip : ∀ c ∈ ip, c.isDigit = true) :
    (ip ++ tail).dropWhile Char.isDigit = tail.dropWhile Char.isDigit := by
  induction ip with
  | nil => rfl
  | cons a r ih =>
    have ha := hip a (List.mem_cons_self _ _)
    simp [List.dropWhile_cons, ha, ih (fun c hc => hip c (List.mem_cons_of_mem _ hc))]

theorem parseFloat_of_digit_head (a : Char) (l : JSString) (ha : a.isDigit = true) :
    parseFloat (a :: l) =
      binary64
        (decimalValue ((a :: l).takeWhile Char.isDigit)
            (match (a :: l).dropWhile Char.isDigit with
              | '.' :: f => f.takeWhile Char.isDigit
              | _ => [])
          * (10 : ℚ) ^ exponentPart
            (match (a :: l).dropWhile Char.isDigit with
              | '.' :: f => f.dropWhile Char.isDigit
              | r => r)) := by
  obtain ⟨hws, hplus, hminus, hI, _, _⟩ := isDigit_facts a ha
  have ht : trimStart (a :: l) = a :: l := by
    simp [trimStart, List.dropWhile_cons, hws]
  have hm : parseFloat (a :: l) = parseUnsigned false (a :: l) := by
    unfold parseFloat
    rw [ht]
    split
    · next u heq => exact absurd (List.cons.inj heq).1 hplus
    · next u heq => exact absurd (List.cons.inj heq).1 hminus
    · rfl
  rw [hm]
  unfold parseUnsigned
  rw [infinity_isPrefixOf_eq_false a l hI]
  simp only [List.takeWhile_cons, List.dropWhile_cons, ha, if_true, decimalValue,
    List.isEmpty_cons, Bool.false_and, Bool.false_eq_true, if_false]
  generalize List.dropWhile Char.isDigit l = r
  congr 4
  split <;> rfl

theorem parseFloat_digits (ip : JSString) (hne : ip ≠ [])
    (hip : ∀ c ∈ ip, c.isDigit = true) :
    parseFloat ip = binary64 (decimalValue ip []) := by
  cases ip with
  | nil => exact absurd rfl hne
  | cons a l =>
    rw [parseFloat_of_digit_head a l (hip a (List.mem_cons_self _ _))]
    have h1 : (a :: l).takeWhile Char.isDigit = a :: l :=
      List.takeWhile_eq_self_iff.mpr hip
    have h2 : (a :: l).dropWhile Char.isDigit = [] :=
      List.dropWhile_eq_nil_iff.mpr hip
    rw [h1, h2]
    simp [exponentPart]

theorem parseFloat_digits_point (ip fp : JSString) (hne : ip ≠ [])
    (hip : ∀ c ∈ ip, c.isDigit = true) (hfp : ∀ c ∈ fp, c.isDigit = true) :
    parseFloat (ip ++ '.' :: fp) = binary64 (decimalValue ip fp) := by
  cases ip with
  | nil => exact absurd rfl hne
  | cons a l =>
    have happ : (a :: l) ++ '.' :: fp = a :: (l ++ '.' :: fp) := rfl
    rw [happ, parseFloat_of_digit_head a _ (hip a (List.mem_cons_self _ _)), ← happ]
    have h1 : ((a :: l) ++ '.' :: fp).takeWhile Char.isDigit = a :: l := by
      rw [takeWhile_digits_append _ _ hip]
      simp [List.takeWhile_cons]
    have h2 : ((a :: l) ++ '.' :: fp).dropWhile Char.isDigit = '.' :: fp := by
      rw [dropWhile_digits_append _ _ hip]
      simp [List.dropWhile_cons]
    have h3 : fp.takeWhile Char.isDigit = fp := List.takeWhile_eq_self_iff.mpr hfp
    have h4 : fp.dropWhile Char.isDigit = [] := List.dropWhile_eq_nil_iff.mpr hfp
    rw [h1, h2]
    simp [h3, h4, exponentPart]

theorem parseFloat_of_punctuation (s : JSString) (hs : ∀ c ∈ s, c = '.' ∨ c = ',') :
    parseFloat s = JSNumber.nan := by
  have notDigit : ∀ c : Char, c = '.' ∨ c = ',' → c.isDigit = false := by
    intro c hc
    rcases hc with rfl | rfl <;> decide
  have takeNil : ∀ l : JSString, (∀ c ∈ l, c = '.' ∨ c = ',') →
      l.takeWhile Char.isDigit = [] := by
    intro l hl
    cases l with
    | nil => rfl
    | cons b r => simp [List.takeWhile_cons, notDigit b (hl b (List.mem_cons_self _ _))]
  cases s with
  | nil => rfl
  | cons a l =>
    have ha := hs a (List.mem_cons_self _ _)
    have hl : ∀ c ∈ l, c = '.' ∨ c = ',' := fun c hc => hs c (List.mem_cons_of_mem _ hc)
    have hws : isJSWhiteSpace a = false := by rcases ha with rfl | rfl <;> decide
    have hplus : a ≠ '+' := by rcases ha with rfl | rfl <;> decide
    have hminus : a ≠ '-' := by rcases ha with rfl | rfl <;> decide
    have hI : a ≠ 'I' := by rcases ha with rfl | rfl <;> decide
    have ht : trimStart (a :: l) = a :: l := by
      simp [trimStart, List.dropWhile_cons, hws]
    have hm : parseFloat (a :: l) = parseUnsigned false (a :: l) := by
      unfold parseFloat
      rw [ht]
      split
      · next u heq => exact absurd (List.cons.inj heq).1 hplus
      · next u heq => exact absurd (List.cons.inj heq).1 hminus
      · rfl
    rw [hm]
    unfold parseUnsigned
    rw [infinity_isPrefixOf_eq_false a l hI]
    have h1 : (a :: l).takeWhile Char.isDigit = [] := takeNil _ hs
    have h2 : (a :: l).dropWhile Char.isDigit = a :: l := by
      simp [List.dropWhile_cons, notDigit a ha]
    simp only [h1, h2]
    rcases ha with rfl | rfl
    · simp [takeNil l hl]
    · simp

/-! ## Lemmas on the field parsers -/

theorem parsePrice_ne_nan (t : Option JSString) : parsePrice t ≠ JSNumber.nan := by
  unfold parsePrice
  split
  · simp
  · simp
  · next text _ =>
    simp only
    cases h : parseFloat (replaceFirstComma (keepPriceChars text)) <;>
      simp [JSNumber.isNaN]

theorem erase_eq_filter_of_count_le_one (a : Char) (l : JSString) (h : l.count a ≤ 1) :
    l.erase a = l.filter (fun c => c != a) := by
  induction l with
  | nil => rfl
  | cons b r ih =>
    by_cases hb : b = a
    · subst hb
      have hc : r.count b = 0 := by
        rw [List.count_cons_self] at h
        omega
      have hnot : b ∉ r := List.count_eq_zero.mp hc
      have hf : r.filter (fun c => c != b) = r := by
        apply List.filter_eq_self.mpr
        intro c hcr
        have : c ≠ b := fun e => hnot (e ▸ hcr)
        simpa using this
      simp [hf]
    · have hc : r.count a ≤ 1 := by
        rw [List.count_cons_of_ne (Ne.symm hb)] at h
        exact h
      rw [List.erase_cons_tail (by simpa using hb), ih hc]
      simp [List.filter_cons, hb]

theorem parsePrice_eq_parsePriceAsSpecified (text : JSString) (h : text.count ',' ≤ 1) :
    parsePrice (some text) = parsePriceAsSpecified (some text) := by
  cases text with
  | nil => rfl
  | cons a l =>
    have hk : (keepPriceChars (a :: l)).count ',' ≤ 1 := by
      unfold keepPriceChars
      rw [List.count_filter (by decide)]
      exact h
    unfold parsePrice parsePriceAsSpecified replaceFirstComma
    simp only
    rw [erase_eq_filter_of_count_le_one _ _ hk]

theorem matchNumber_parseFloat (s : JSString) :
    (matchNumber s).map parseFloat =
      (firstDecimalToken s).map (fun tok => binary64 (decimalValue tok.1 tok.2)) := by
  unfold matchNumber firstDecimalToken
  cases hd : s.dropWhile (fun c => !c.isDigit) with
  | nil => rfl
  | cons a d =>
    have ha : a.isDigit = true := by
      have := List.head?_dropWhile_not (fun c => !c.isDigit) s
      rw [hd] at this
      simpa using this
    have hne : (a :: d).takeWhile Char.isDigit ≠ [] := by
      simp [List.takeWhile_cons, ha]
    have hip : ∀ c ∈ (a :: d).takeWhile Char.isDigit, c.isDigit = true :=
      fun c hc => List.mem_takeWhile_imp hc
    simp only
    split
    · next f hf =>
      have hfp : ∀ c ∈ f.takeWhile Char.isDigit, c.isDigit = true :=
        fun c hc => List.mem_takeWhile_imp hc
      simp [parseFloat_digits_point _ _ hne hip hfp]
    · simp [parseFloat_digits _ hne hip]

theorem parseRating_eq_parseRatingAsSpecified (t : Option JSString) :
    parseRating t = parseRatingAsSpecified t := by
  cases t with
  | none => rfl
  | some text =>
    cases text with
    | nil => rfl
    | cons c cs =>
      have hm := matchNumber_parseFloat (c :: cs)
      unfold parseRating parseRatingAsSpecified
      simp only
      cases h1 : matchNumber (c :: cs) with
      | none =>
        cases h2 : firstDecimalToken (c :: cs) with
        | none =>
          simp only [gt_iff_lt]
          split
          · rfl
          · next hz =>
            have : countStars (c :: cs) = 0 := by omega
            simp [this]
        | some tok => rw [h1, h2] at hm; simp at hm
      | some m =>
        cases h2 : firstDecimalToken (c :: cs) with
        | none => rw [h1, h2] at hm; simp at hm
        | some tok =>
          rw [h1, h2] at hm
          simp only [Option.map_some', Option.some.injEq] at hm
          obtain ⟨ip, fp⟩ := tok
          simp only [hm, JSNumber.leConst, JSNumber.divConst, decide_eq_true_eq]

theorem decimalValue_nonneg (ip fp : JSString) : 0 ≤ decimalValue ip fp := by
  unfold decimalValue
  positivity

theorem natCast_lt_pow2_53 (c : ℕ) (hc : c ≤ 50) : (c : ℚ) < pow2 53 := by
  have h : (50 : ℚ) < pow2 53 := by
    rw [pow2_eq_zpow]
    norm_num
  have : (c : ℚ) ≤ 50 := by exact_mod_cast hc
  linarith

theorem orZero_of_isNonNegative (r : JSNumber) (h : r.isNonNegative = true) :
    (if r.toBoolean then r else JSNumber.num 0) = r := by
  cases r with
  | nan => simp [JSNumber.isNonNegative] at h
  | inf negative => simp [JSNumber.toBoolean]
  | num q =>
    by_cases hq : q = 0
    · simp [JSNumber.toBoolean, hq]
    · simp [JSNumber.toBoolean, hq]

theorem divConst_ten_bounds (y : ℚ) (hy : 0 ≤ y) :
    ((JSNumber.num y).divConst 10).isNonNegative = true
      ∧ (y ≤ 50 → ((JSNumber.num y).divConst 10).leConst 5 = true) := by
  have hq : 0 ≤ y / 10 := by positivity
  constructor
  · show (binary64 (y / 10)).isNonNegative = true
    rcases binary64_of_nonneg (y / 10) hq with h | ⟨z, h, hz⟩
    · rw [h]; rfl
    · rw [h]; simpa [JSNumber.isNonNegative] using hz
  · intro h50
    show (binary64 (y / 10)).leConst 5 = true
    have hle : y / 10 ≤ ((5 : ℕ) : ℚ) := by
      push_cast
      linarith
    obtain ⟨z, h, _, hz⟩ :=
      binary64_le_natCast (y / 10) 5 hq hle (natCast_lt_pow2_53 5 (by norm_num))
    rw [h]
    simp only [JSNumber.leConst, decide_eq_true_eq]
    exact_mod_cast hz

theorem parseRatingAsSpecified_bounds (t : Option JSString) :
    (parseRatingAsSpecified t).isNonNegative = true
      ∧ (t = none → parseRatingAsSpecified t = JSNumber.num 0)
      ∧ (ratingWithinScale t = true → (parseRatingAsSpecified t).leConst 5 = true) := by
  have hzero : (JSNumber.num 0).isNonNegative = true
      ∧ (JSNumber.num 0).leConst 5 = true := by
    simp [JSNumber.isNonNegative, JSNumber.leConst]
  cases t with
  | none => exact ⟨hzero.1, fun _ => rfl, fun _ => hzero.2⟩
  | some text =>
    cases text with
    | nil => exact ⟨hzero.1, fun h => by simp at h, fun _ => hzero.2⟩
    | cons c cs =>
      unfold parseRatingAsSpecified ratingWithinScale
      simp only
      cases h : firstDecimalToken (c :: cs) with
      | none =>
        refine ⟨?_, fun h => by simp at h, ?_⟩
        · simp [JSNumber.isNonNegative]
        · intro hs
          simp only [decide_eq_true_eq] at hs
          simp only [JSNumber.leConst, decide_eq_true_eq]
          exact_mod_cast hs
      | some tok =>
        obtain ⟨ip, fp⟩ := tok
        simp only
        have hv := decimalValue_nonneg ip fp
        refine ⟨?_, fun h => by simp at h, ?_⟩
        · rcases binary64_of_nonneg (decimalValue ip fp) hv with hb | ⟨y, hb, hy⟩
          · rw [hb]
            rfl
          · rw [hb]
            by_cases h5 : (JSNumber.num y).leConst 5 = true
            · simp only [h5, if_true]
              simpa [JSNumber.isNonNegative] using hy
            · simp only [h5]
              exact (divConst_ten_bounds y hy).1
        · intro hs
          simp only [decide_eq_true_eq] at hs
          obtain ⟨y, hb, hy, hy50⟩ :=
            binary64_le_natCast (decimalValue ip fp) 50 hv (by exact_mod_cast hs)
              (natCast_lt_pow2_53 50 (le_refl _))
          rw [hb]
          by_cases h5 : (JSNumber.num y).leConst 5 = true
          · simp only [h5, if_true]
          · simp only [h5]
            exact (divConst_ten_bounds y hy).2 (by exact_mod_cast hy50)

/-! ## Lemmas on the element extractor -/

theorem extractTextFromSelectors_some (doc : Document) (element : Node) :
    ∀ (selectors : List Selector) (s : JSString),
      extractTextFromSelectors doc element selectors = some s → s ≠ [] ∧ trim s = s := by
  intro selectors
  induction selectors with
  | nil => intro s h; simp [extractTextFromSelectors] at h
  | cons sel rest ih =>
    intro s h
    unfold extractTextFromSelectors at h
    cases hq : element.querySelector doc sel with
    | none => rw [hq] at h; exact ih s h
    | some found =>
      rw [hq] at h
      by_cases he : (trim found.textContent).isEmpty = true
      · simp only [he, Bool.not_true, Bool.false_eq_true, if_false] at h
        exact ih s h
      · simp only [he, Bool.not_false, if_true] at h
        have hs : trim found.textContent = s := Option.some.inj h
        subst hs
        refine ⟨?_, trim_trim _⟩
        intro hnil
        exact he (by rw [hnil]; rfl)

theorem extractProductFromElement_fields (doc : Document) (element : Node)
    (sourceUrl : JSString) (p : Product)
    (h : extractProductFromElement doc element sourceUrl = some p) :
    p.name = extractTextFromSelectors doc element nameSelectors
      ∧ p.price = parsePrice (extractTextFromSelectors doc element priceSelectors)
      ∧ p.rating =
        (if (parseRating (extractTextFromSelectors doc element ratingSelectors)).toBoolean
          then parseRating (extractTextFromSelectors doc element ratingSelectors)
          else JSNumber.num 0) := by
  unfold extractProductFromElement at h
  have := Option.some.inj h
  subst this
  exact ⟨rfl, rfl, rfl⟩

theorem mem_recordsOf (doc : Document) (sourceUrl : JSString) (sel : Selector) (p : Product)
    (h : p ∈ recordsOf doc sourceUrl sel) :
    ∃ element ∈ (doc.querySelectorAll sel).take 20,
      extractProductFromElement doc element sourceUrl = some p
        ∧ isAccepted (some p) = true := by
  unfold recordsOf at h
  obtain ⟨element, hmem, hacc⟩ := List.mem_filterMap.mp h
  refine ⟨element, hmem, ?_⟩
  unfold acceptedRecord at hacc
  cases hx : extractProductFromElement doc element sourceUrl with
  | none => simp [hx] at hacc
  | some q =>
    rw [hx] at hacc
    by_cases ha : isAccepted (some q) = true
    · simp [Option.filter, ha] at hacc
      subst hacc
      exact ⟨rfl, ha⟩
    · simp [Option.filter, ha] at hacc

theorem head?_filter_eq_find? {α : Type} (p : α → Bool) (l : List α) :
    (l.filter p).head? = l.find? p := by
  induction l with
  | nil => rfl
  | cons a r ih =>
    by_cases h : p a = true
    · simp [List.filter_cons, List.find?_cons, h]
    · simp [List.filter_cons, List.find?_cons, h, ih]

theorem firstMatchText_eq (doc : Document) (element : Node) (sel : Selector) :
    firstMatchText doc element sel =
      match element.querySelector doc sel with
      | some found =>
        if !(trim found.textContent).isEmpty then some (trim found.textContent) else none
      | none => none := by
  unfold firstMatchText matchingTexts Node.querySelector
  rw [List.head?_map, head?_filter_eq_find?]
  cases element.descendantElements.find? (sel.isMatchedBy doc) with
  | none => rfl
  | some found =>
    by_cases h : (trim found.textContent).isEmpty = true
    · simp [Option.filter, h]
    · simp [Option.filter, h]

theorem extractTextFromSelectors_eq_findSome (doc : Document) (element : Node)
    (selectors : List Selector) :
    extractTextFromSelectors doc element selectors =
      selectors.findSome? (firstMatchText doc element) := by
  induction selectors with
  | nil => rfl
  | cons sel rest ih =>
    unfold extractTextFromSelectors
    rw [List.findSome?_cons, firstMatchText_eq]
    cases element.querySelector doc sel with
    | none => simpa using ih
    | some found =>
      by_cases h : (trim found.textContent).isEmpty = true
      · simpa [h] using ih
      · simp [h]

theorem firstMatchText_some (doc : Document) (element : Node) (sel : Selector) (s : JSString)
    (h : firstMatchText doc element sel = some s) :
    ∃ found ∈ element.descendantElements,
      sel.isMatchedBy doc found = true ∧ s = trim found.textContent := by
  rw [firstMatchText_eq] at h
  unfold Node.querySelector at h
  cases hq : element.descendantElements.find? (sel.isMatchedBy doc) with
  | none => rw [hq] at h; simp at h
  | some found =>
    rw [hq] at h
    refine ⟨found, List.mem_of_find?_eq_some hq, List.find?_some hq, ?_⟩
    by_cases he : (trim found.textContent).isEmpty = true
    · simp [he] at h
    · simp [he] at h
      exact h.symm

theorem extractProductFromElement_imageUrl (doc : Document) (element : Node)
    (sourceUrl : JSString) (p : Product)
    (h : extractProductFromElement doc element sourceUrl = some p) :
    p.imageUrl = (element.querySelector doc (Selector.tag "img")).map (imageUrlOf doc) := by
  unfold extractProductFromElement at h
  have := Option.some.inj h
  subst this
  rfl

theorem filterMap_map_some {α β : Type} (f : α → Option β) (l : List α)
    (h : ∀ x ∈ l, (f x).isSome = true) : (l.filterMap f).map some = l.map f := by
  induction l with
  | nil => rfl
  | cons a r ih =>
    have ha := h a (List.mem_cons_self _ _)
    have hr : ∀ x ∈ r, (f x).isSome = true := fun x hx => h x (List.mem_cons_of_mem _ hx)
    cases hfa : f a with
    | none => rw [hfa] at ha; simp at ha
    | some b => simp [List.filterMap_cons, hfa, ih hr]

theorem extractProductFromElement_card (doc : Document) (card : Node) (sourceUrl : JSString)
    (hname : firstMatchText doc card (Selector.tag "h3") ≠ none)
    (hprice : firstMatchText doc card (Selector.cls "price") = some "$19.99".toList)
    (hrating : ∀ sel ∈ ratingSelectors, matchingTexts doc card sel = []) :
    ∃ p, extractProductFromElement doc card sourceUrl = some p
      ∧ isAccepted (some p) = true
      ∧ p.price = binary64 19.99 ∧ p.rating = JSNumber.num 0 := by
  have hn : extractTextFromSelectors doc card nameSelectors ≠ none := by
    rw [extractTextFromSelectors_eq_findSome]
    intro hnone
    have := List.findSome?_eq_none_iff.mp hnone (Selector.tag "h3") (by simp [nameSelectors])
    exact hname this
  have hp : extractTextFromSelectors doc card priceSelectors = some "$19.99".toList := by
    rw [extractTextFromSelectors_eq_findSome]
    simp [priceSelectors, List.findSome?_cons, hprice]
  have hr : extractTextFromSelectors doc card ratingSelectors = none := by
    rw [extractTextFromSelectors_eq_findSome]
    apply List.findSome?_eq_none_iff.mpr
    intro sel hsel
    simp [firstMatchText, hrating sel hsel]
  have hval : parsePrice (some "$19.99".toList) = binary64 19.99 := by decide!
  refine ⟨_, rfl, ?_, ?_, ?_⟩
  · cases hx : extractTextFromSelectors doc card nameSelectors with
    | none => exact absurd hx hn
    | some s =>
      have hs := (extractTextFromSelectors_some doc card _ s hx).1
      have hs' : s.isEmpty = false := by
        cases s with
        | nil => exact absurd rfl hs
        | cons a l => rfl
      have htrue : (binary64 19.99).toBoolean = true := by decide!
      show (isTruthyString (some s)
        && (parsePrice (extractTextFromSelectors doc card priceSelectors)).toBoolean) = true
      rw [hp, hval, htrue]
      simp [isTruthyString, hs']
  · show parsePrice (extractTextFromSelectors doc card priceSelectors) = _
    rw [hp, hval]
  · show (if (parseRating (extractTextFromSelectors doc card ratingSelectors)).toBoolean
        then parseRating (extractTextFromSelectors doc card ratingSelectors)
        else JSNumber.num 0) = _
    rw [hr]
    simp [parseRating, JSNumber.toBoolean]

/-! ## Lemmas on the scan loop -/

theorem visitElement_eq (doc : Document) (sourceUrl : JSString) (products : List Product)
    (index : ℕ) (element : Node) :
    visitElement doc sourceUrl products index element =
      products ++ (if index < 20 then (acceptedRecord doc sourceUrl element).toList else []) := by
  unfold visitElement acceptedRecord
  by_cases hi : index < 20
  · simp only [hi, if_true]
    cases hx : extractProductFromElement doc element sourceUrl with
    | none => simp
    | some p =>
      by_cases ha : isAccepted (some p) = true
      · simp [Option.filter, ha]
      · simp [Option.filter, ha]
  · simp [hi]

theorem foldl_enumFrom_visit (doc : Document) (sourceUrl : JSString) (elements : List Node) :
    ∀ (n : ℕ) (products : List Product),
      (elements.enumFrom n).foldl
          (fun acc ie => visitElement doc sourceUrl acc ie.1 ie.2) products =
        products ++ (elements.take (20 - n)).filterMap (acceptedRecord doc sourceUrl) := by
  induction elements with
  | nil => intro n products; simp
  | cons e es ih =>
    intro n products
    rw [List.enumFrom_cons, List.foldl_cons, ih, visitElement_eq]
    by_cases hn : n < 20
    · obtain ⟨k, hk⟩ : ∃ k, 20 - n = k + 1 := ⟨20 - n - 1, by omega⟩
      have hk2 : 20 - (n + 1) = k := by omega
      rw [hk, hk2, List.take_succ_cons, List.filterMap_cons]
      cases hx : acceptedRecord doc sourceUrl e <;> simp [hn]
    · have h1 : 20 - n = 0 := by omega
      have h2 : 20 - (n + 1) = 0 := by omega
      simp [hn, h1, h2]

theorem forEachElement_eq (doc : Document) (sourceUrl : JSString) (elements : List Node)
    (products : List Product) :
    forEachElement doc sourceUrl elements products =
      products ++ (elements.take 20).filterMap (acceptedRecord doc sourceUrl) := by
  unfold forEachElement
  rw [List.enum, foldl_enumFrom_visit]

theorem scanSelectors_eq_find (doc : Document) (sourceUrl : JSString) :
    ∀ selectors : List Selector,
      scanSelectors doc sourceUrl selectors [] =
        match selectors.find? (fun sel => !(recordsOf doc sourceUrl sel).isEmpty) with
        | some sel => recordsOf doc sourceUrl sel
        | none => [] := by
  intro selectors
  induction selectors with
  | nil => rfl
  | cons sel rest ih =>
    unfold scanSelectors
    simp only [forEachElement_eq, List.nil_append]
    by_cases hm : (doc.querySelectorAll sel).length > 0
    · simp only [hm, if_true]
      change (if (recordsOf doc sourceUrl sel).length > 0 then recordsOf doc sourceUrl sel
        else scanSelectors doc sourceUrl rest (recordsOf doc sourceUrl sel)) = _
      by_cases hr : (recordsOf doc sourceUrl sel).length > 0
      · have hne : (recordsOf doc sourceUrl sel).isEmpty = false := by
          cases h : recordsOf doc sourceUrl sel with
          | nil => simp [h] at hr
          | cons a l => rfl
        simp [hr, List.find?_cons, hne]
      · have hnil : recordsOf doc sourceUrl sel = [] := by
          cases h : recordsOf doc sourceUrl sel with
          | nil => rfl
          | cons a l => simp [h] at hr
        simp only [hnil, List.length_nil, gt_iff_lt, lt_self_iff_false, if_false]
        rw [ih]
        simp [List.find?_cons, hnil]
    · have hnil : doc.querySelectorAll sel = [] := by
        cases h : doc.querySelectorAll sel with
        | nil => rfl
        | cons a l => simp [h] at hm
      have hrec : recordsOf doc sourceUrl sel = [] := by simp [recordsOf, hnil]
      simp only [hm, if_false]
      rw [ih]
      simp [List.find?_cons, hrec]

theorem parseProductsFromHTML_of_ok (parseFromString : JSString → Except JSError Document)
    (html sourceUrl : JSString) (doc : Document) (h : parseFromString html = Except.ok doc) :
    parseProductsFromHTML parseFromString html sourceUrl =
      Except.ok (scanSelectors doc sourceUrl productSelectors []) := by
  unfold parseProductsFromHTML
  rw [h]

theorem recordsOf_length_le (doc : Document) (sourceUrl : JSString) (sel : Selector) :
    (recordsOf doc sourceUrl sel).length ≤ 20 := by
  unfold recordsOf
  calc (List.filterMap (acceptedRecord doc sourceUrl)
          ((doc.querySelectorAll sel).take 20)).length
      ≤ ((doc.querySelectorAll sel).take 20).length := List.length_filterMap_le _ _
    _ ≤ 20 := by simp [List.length_take]

theorem scanSelectors_cases (doc : Document) (sourceUrl : JSString)
    (selectors : List Selector) :
    (∃ sel ∈ selectors, scanSelectors doc sourceUrl selectors [] = recordsOf doc sourceUrl sel)
      ∨ (scanSelectors doc sourceUrl selectors [] = []
          ∧ ∀ sel ∈ selectors, recordsOf doc sourceUrl sel = []) := by
  rw [scanSelectors_eq_find]
  cases hf : selectors.find? (fun sel => !(recordsOf doc sourceUrl sel).isEmpty) with
  | some sel => exact Or.inl ⟨sel, List.mem_of_find?_eq_some hf, rfl⟩
  | none =>
    refine Or.inr ⟨rfl, fun sel hsel => ?_⟩
    have := List.find?_eq_none.mp hf sel hsel
    simpa using this

theorem plainDoc_no_container :
    ∀ sel ∈ productSelectors, plainDoc.querySelectorAll sel = [] := by
  have h : ∀ sel ∈ productSelectors, (plainDoc.querySelectorAll sel).isEmpty = true := by
    decide
  intro sel hsel
  exact List.isEmpty_iff.mp (h sel hsel)

/-! ## Lemmas on the star display -/

theorem truncate_intCast (n : ℤ) : JSNumber.truncate (n : ℚ) = n := by
  unfold JSNumber.truncate
  split <;> simp

theorem truncate_of_nonneg (q : ℚ) (h : 0 ≤ q) : JSNumber.truncate q = ⌊q⌋ := by
  unfold JSNumber.truncate
  simp [h]

theorem flatten_replicate_singleton (n : ℕ) (a : Char) :
    (List.replicate n [a]).flatten = List.replicate n a := by
  induction n with
  | zero => rfl
  | succ k ih => simp [List.replicate_succ, ih]

theorem sub_natCast (a b : ℕ) (hba : b ≤ a) (ha : a ≤ 50) :
    (JSNumber.num (a : ℚ)).sub (JSNumber.num (b : ℚ)) = JSNumber.num ((a - b : ℕ) : ℚ) := by
  show binary64 ((a : ℚ) - (b : ℚ)) = _
  rw [← Nat.cast_sub hba]
  exact binary64_natCast _ (natCast_lt_pow2_53 _ (by omega))

theorem repeatString_natCast (a : Char) (n : ℕ) :
    repeatString [a] (JSNumber.num ((n : ℤ) : ℚ)) = Except.ok (List.replicate n a) := by
  unfold repeatString
  simp only [truncate_intCast]
  simp [flatten_replicate_singleton]

theorem generateStars_of_floor (q : ℚ) (h0 : 0 ≤ q) (h5 : q ≤ 5) :
    ∃ full : ℕ, (full : ℤ) = ⌊q⌋ ∧ full ≤ 5
      ∧ fullStars (JSNumber.num q) = JSNumber.num ((full : ℤ) : ℚ)
      ∧ (∃ empty : ℕ, emptyStars (JSNumber.num q) = JSNumber.num ((empty : ℤ) : ℚ))
      ∧ generateStars (JSNumber.num q) =
          Except.ok (List.replicate full '★' ++ List.replicate (5 - full) '☆') := by
  have hf0 : 0 ≤ ⌊q⌋ := Int.floor_nonneg.mpr h0
  have hf5 : ⌊q⌋ ≤ 5 := by
    have : ⌊q⌋ ≤ ⌊(5 : ℚ)⌋ := Int.floor_le_floor h5
    simpa using this
  obtain ⟨n, hn⟩ := Int.eq_ofNat_of_zero_le hf0
  have hn5 : n ≤ 5 := by omega
  have hfull : fullStars (JSNumber.num q) = JSNumber.num ((n : ℤ) : ℚ) := by
    simp [fullStars, JSNumber.floor, hn]
  have hrem : (JSNumber.num q).remOne = JSNumber.num (q - ((n : ℤ) : ℚ)) := by
    simp [JSNumber.remOne, truncate_of_nonneg q h0, hn]
  have hqn : ((n : ℤ) : ℚ) ≤ q := by
    have := Int.floor_le q
    rw [hn] at this
    exact this
  have main : (∃ empty : ℕ, emptyStars (JSNumber.num q) = JSNumber.num ((empty : ℤ) : ℚ))
      ∧ generateStars (JSNumber.num q) =
          Except.ok (List.replicate n '★' ++ List.replicate (5 - n) '☆') := by
    by_cases hh : hasHalfStar (JSNumber.num q) = true
    · have hlt : n < 5 := by
        by_contra hc
        have hn5' : n = 5 := by omega
        unfold hasHalfStar at hh
        rw [hrem] at hh
        simp only [JSNumber.geConst, decide_eq_true_eq] at hh
        subst hn5'
        norm_num at hh hqn
        linarith
      have hempty : emptyStars (JSNumber.num q) = JSNumber.num (((5 - n - 1 : ℕ) : ℤ) : ℚ) := by
        unfold emptyStars
        rw [hfull]
        simp only [hh, if_true, Int.cast_natCast]
        have h5 : JSNumber.num 5 = JSNumber.num ((5 : ℕ) : ℚ) := by norm_num
        have h1 : JSNumber.num 1 = JSNumber.num ((1 : ℕ) : ℚ) := by norm_num
        rw [h5, h1, sub_natCast 5 n hn5 (by norm_num),
          sub_natCast (5 - n) 1 (by omega) (by omega)]
      refine ⟨⟨_, hempty⟩, ?_⟩
      unfold generateStars
      rw [hfull, hempty, repeatString_natCast, repeatString_natCast]
      simp only [hh, if_true]
      have h5n : 5 - n = (5 - n - 1) + 1 := by omega
      show Except.ok _ = Except.ok _
      congr 1
      rw [h5n, List.replicate_succ]
      simp
    · have hh' : hasHalfStar (JSNumber.num q) = false := by simpa using hh
      have hempty : emptyStars (JSNumber.num q) = JSNumber.num (((5 - n : ℕ) : ℤ) : ℚ) := by
        unfold emptyStars
        rw [hfull, hh']
        simp only [Bool.false_eq_true, if_false, Int.cast_natCast]
        have h5 : JSNumber.num 5 = JSNumber.num ((5 : ℕ) : ℚ) := by norm_num
        have h0 : JSNumber.num 0 = JSNumber.num ((0 : ℕ) : ℚ) := by norm_num
        rw [h5, h0, sub_natCast 5 n hn5 (by norm_num),
          sub_natCast (5 - n) 0 (by omega) (by omega)]
        simp
      refine ⟨⟨_, hempty⟩, ?_⟩
      unfold generateStars
      rw [hfull, hempty, repeatString_natCast, repeatString_natCast]
      simp only [hh']
      show Except.ok _ = Except.ok _
      simp
  exact ⟨n, hn.symm, hn5, hfull, main.1, main.2⟩

/-! ## C1: the scan does not stop at a pattern that yields no record -/

/-- C1 (as stated, refuted): in `fallthroughDoc` the first pattern that matches
an element is `.product-item`, it yields no record passing the filter, and yet
the result is not empty: the scan went on to `.product-card` and returned its
record. -/
theorem fallthrough_counterexample :
    productSelectors.find? (fun sel => !(fallthroughDoc.querySelectorAll sel).isEmpty)
        = some (Selector.cls "product-item")
      ∧ recordsOf fallthroughDoc sampleUrl (Selector.cls "product-item") = []
      ∧ parseProductsFromHTML (parserReturning fallthroughDoc) fallthroughHtml sampleUrl
        = Except.ok [lampRecord] := by
  refine ⟨by decide, by decide!, ?_⟩
  rw [parseProductsFromHTML_of_ok _ _ _ fallthroughDoc rfl]
  exact congrArg Except.ok (by decide!)

/-- C1 (amended): the scan stops at the first pattern, in chain order, whose
first 20 matched elements yield at least one record passing the name and
price filter, and returns the records of that pattern; a pattern whose matches
yield no record is passed over, and the result is empty only when no pattern
of the chain yields a record. -/
theorem parseProductsFromHTML_first_yielding_pattern
    (parseFromString : JSString → Except JSError Document) (html sourceUrl : JSString)
    (doc : Document) (h : parseFromString html = Except.ok doc) :
    parseProductsFromHTML parseFromString html sourceUrl =
      Except.ok
        (match productSelectors.find? (fun sel => !(recordsOf doc sourceUrl sel).isEmpty) with
         | some sel => recordsOf doc sourceUrl sel
         | none => []) := by
  rw [parseProductsFromHTML_of_ok _ _ _ doc h, scanSelectors_eq_find]

/-- C1 (amended), at `fallthroughDoc`. -/
theorem parseProductsFromHTML_first_yielding_pattern_witness :
    parserReturning fallthroughDoc fallthroughHtml = Except.ok fallthroughDoc
      ∧ parseProductsFromHTML (parserReturning fallthroughDoc) fallthroughHtml sampleUrl =
        Except.ok
          (match productSelectors.find?
              (fun sel => !(recordsOf fallthroughDoc sampleUrl sel).isEmpty) with
           | some sel => recordsOf fallthroughDoc sampleUrl sel
           | none => []) :=
  ⟨rfl, parseProductsFromHTML_first_yielding_pattern (parserReturning fallthroughDoc)
    fallthroughHtml sampleUrl fallthroughDoc rfl⟩

/-! ## C2: at most 20 records -/

/-- C2: for every parser, HTML text and source identifier,
`parseProductsFromHTML` returns a list, and the list has at most 20 records. -/
theorem parseProductsFromHTML_length_le_20
    (parseFromString : JSString → Except JSError Document) (html sourceUrl : JSString) :
    ∃ products, parseProductsFromHTML parseFromString html sourceUrl = Except.ok products
      ∧ products.length ≤ 20 := by
  cases h : parseFromString html with
  | error e => exact ⟨[], by simp [parseProductsFromHTML, h], by simp⟩
  | ok doc =>
    refine ⟨_, parseProductsFromHTML_of_ok _ _ _ doc h, ?_⟩
    rcases scanSelectors_cases doc sourceUrl productSelectors with ⟨sel, _, hs⟩ | ⟨hs, _⟩
    · rw [hs]; exact recordsOf_length_le doc sourceUrl sel
    · rw [hs]; simp

/-! ## C3: every returned record has a name and a price -/

/-- C3: for every input `parseProductsFromHTML` returns a list (nothing is
reported as an error), and every record of the list has a name that is a
non-empty string, non-empty after trimming (trimming leaves it unchanged), and
a price that is neither `NaN` nor zero. -/
theorem parseProductsFromHTML_records_have_name_and_price
    (parseFromString : JSString → Except JSError Document) (html sourceUrl : JSString) :
    ∃ products, parseProductsFromHTML parseFromString html sourceUrl = Except.ok products
      ∧ ∀ p ∈ products,
          (∃ name, p.name = some name ∧ name ≠ [] ∧ trim name ≠ [] ∧ trim name = name)
            ∧ p.price ≠ JSNumber.nan ∧ p.price ≠ JSNumber.num 0 := by
  cases h : parseFromString html with
  | error e => exact ⟨[], by simp [parseProductsFromHTML, h], by simp⟩
  | ok doc =>
    refine ⟨_, parseProductsFromHTML_of_ok _ _ _ doc h, ?_⟩
    intro p hp
    rcases scanSelectors_cases doc sourceUrl productSelectors with ⟨sel, _, hs⟩ | ⟨hs, _⟩
    · rw [hs] at hp
      obtain ⟨element, _, hx, hacc⟩ := mem_recordsOf doc sourceUrl sel p hp
      obtain ⟨hname, _, _⟩ := extractProductFromElement_fields doc element sourceUrl p hx
      simp only [isAccepted, Bool.and_eq_true] at hacc
      obtain ⟨hn, hpr⟩ := hacc
      refine ⟨?_, ?_, ?_⟩
      · cases hnm : p.name with
        | none => rw [hnm] at hn; simp [isTruthyString] at hn
        | some name =>
          rw [hnm] at hname
          obtain ⟨hne, htrim⟩ :=
            extractTextFromSelectors_some doc element _ name hname.symm
          exact ⟨name, rfl, hne, by rw [htrim]; exact hne, htrim⟩
      · intro hnan; rw [hnan] at hpr; simp [JSNumber.toBoolean] at hpr
      · intro hz; rw [hz] at hpr; simp [JSNumber.toBoolean] at hpr
    · rw [hs] at hp; simp at hp

/-! ## C4: the result is the record list of one pattern -/

/-- C4: the returned list is drawn from one container pattern of the chain: it
is the list of kept records of that pattern's first 20 matched elements, in
document order, each element contributing at most its own record; nothing is
sorted, merged or removed as a duplicate (two equal containers give two equal
records). -/
theorem parseProductsFromHTML_single_pattern
    (parseFromString : JSString → Except JSError Document) (html sourceUrl : JSString)
    (doc : Document) (h : parseFromString html = Except.ok doc) :
    ∃ sel ∈ productSelectors,
      parseProductsFromHTML parseFromString html sourceUrl =
          Except.ok (((doc.querySelectorAll sel).take 20).filterMap
            (fun element =>
              (extractProductFromElement doc element sourceUrl).filter
                (fun p => isAccepted (some p))))
        ∧ ∀ element r, doc.querySelectorAll sel = [element, element] →
            extractProductFromElement doc element sourceUrl = some r →
            isAccepted (some r) = true →
            parseProductsFromHTML parseFromString html sourceUrl = Except.ok [r, r] := by
  have key : ∃ sel ∈ productSelectors,
      parseProductsFromHTML parseFromString html sourceUrl =
        Except.ok (recordsOf doc sourceUrl sel) := by
    rw [parseProductsFromHTML_of_ok _ _ _ doc h]
    rcases scanSelectors_cases doc sourceUrl productSelectors with ⟨sel, hsel, hs⟩ | ⟨hs, hall⟩
    · exact ⟨sel, hsel, by rw [hs]⟩
    · refine ⟨Selector.cls "product-item", by simp [productSelectors], ?_⟩
      rw [hs, hall _ (by simp [productSelectors])]
  obtain ⟨sel, hsel, hres⟩ := key
  refine ⟨sel, hsel, hres, ?_⟩
  intro element r hq hx ha
  rw [hres]
  simp [recordsOf, acceptedRecord, hq, hx, Option.filter, ha]

/-- C4, at `fallthroughDoc`. -/
theorem parseProductsFromHTML_single_pattern_witness :
    parserReturning fallthroughDoc fallthroughHtml = Except.ok fallthroughDoc
      ∧ ∃ sel ∈ productSelectors,
        parseProductsFromHTML (parserReturning fallthroughDoc) fallthroughHtml sampleUrl =
            Except.ok (((fallthroughDoc.querySelectorAll sel).take 20).filterMap
              (fun element =>
                (extractProductFromElement fallthroughDoc element sampleUrl).filter
                  (fun p => isAccepted (some p))))
          ∧ ∀ element r, fallthroughDoc.querySelectorAll sel = [element, element] →
              extractProductFromElement fallthroughDoc element sampleUrl = some r →
              isAccepted (some r) = true →
              parseProductsFromHTML (parserReturning fallthroughDoc) fallthroughHtml sampleUrl
                = Except.ok [r, r] :=
  ⟨rfl, parseProductsFromHTML_single_pattern (parserReturning fallthroughDoc) fallthroughHtml
    sampleUrl fallthroughDoc rfl⟩

/-! ## C5: the price parser removes one comma only -/

/-- C5 (the code departs from the claim): on the text `$1,234,567.89` the
method `parsePrice` returns 1234, because only the first comma is removed and
the parse stops at the second one, while deleting every comma, as the
specification words it, gives 1234567.89. The two examples of the
specification, which hold one comma at most, are computed as stated. -/
theorem parsePrice_second_comma :
    parsePrice (some "$1,234,567.89".toList) = JSNumber.num 1234
      ∧ parsePriceAsSpecified (some "$1,234,567.89".toList) = binary64 1234567.89
      ∧ parsePrice (some "$1,234.56".toList) = binary64 1234.56
      ∧ parsePrice (some "€99.99".toList) = binary64 99.99 :=
  ⟨by decide!, by decide!, by decide!, by decide!⟩

/-! ## C6: the rating parser -/

/-- C6: for every text, or absent text, `parseRating` returns what the
specification says: `0` for an empty or absent text; otherwise, with `v` the
Number value (binary64) of the first decimal token, `v` when `v ≤ 5` and the
binary64 quotient `v / 10` when `v > 5`, whatever else the text holds;
otherwise the number of filled stars. The four examples of the specification
hold, `0.9` being the Number value of that literal. The comparison and the
quotient are those of the rounded value: the token `5.0000000000000001` has
the value 5 and is returned as it is, and `5.7` gives the binary64 quotient
0.5700000000000001 (2567051787601183 / 2 ^ 52). -/
theorem parseRating_as_specified :
    (∀ t : Option JSString, parseRating t = parseRatingAsSpecified t)
      ∧ parseRating (some "4.5 out of 5".toList) = JSNumber.num 4.5
      ∧ parseRating (some "9/10".toList) = binary64 0.9
      ∧ parseRating (some "★★★☆☆".toList) = JSNumber.num 3
      ∧ parseRating (some "".toList) = JSNumber.num 0
      ∧ parseRating none = JSNumber.num 0
      ∧ parseRating (some "5.0000000000000001".toList) = JSNumber.num 5
      ∧ parseRating (some "5.7".toList)
        = JSNumber.num (2567051787601183 / 4503599627370496) :=
  ⟨parseRating_eq_parseRatingAsSpecified, by decide!, by decide!, by decide!, rfl, rfl,
    by decide!, by decide!⟩

/-! ## C7: the rating of a record -/

/-- C7 (the code departs from the claim): the tile of `ratingDoc` has the
rating text `95% positive`; the record returned for it has the rating 9.5,
which is not at most 5. -/
theorem rating_counterexample :
    parseProductsFromHTML (parserReturning ratingDoc) ratingHtml sampleUrl
        = Except.ok [ratedRecord]
      ∧ ratedRecord.rating = JSNumber.num 9.5
      ∧ ratedRecord.rating.leConst 5 = false := by
  refine ⟨?_, rfl, by decide!⟩
  rw [parseProductsFromHTML_of_ok _ _ _ ratingDoc rfl]
  exact congrArg Except.ok (by decide!)

/-- What the code does guarantee about ratings: every record returned by
`parseProductsFromHTML` comes from a container element matched by a pattern of
the chain, and its rating is the value of `parseRating` on the container's
rating text: a number that is at least 0, equal to 0 when the rating text is
absent, and at most 5 whenever the first decimal token of the rating text is at
most 50 or, without such a token, the text holds at most five filled stars. -/
theorem parseProductsFromHTML_rating_bounds
    (parseFromString : JSString → Except JSError Document) (html sourceUrl : JSString)
    (doc : Document) (h : parseFromString html = Except.ok doc) :
    ∃ products, parseProductsFromHTML parseFromString html sourceUrl = Except.ok products
      ∧ ∀ p ∈ products, ∃ sel ∈ productSelectors, ∃ element ∈ doc.querySelectorAll sel,
          extractProductFromElement doc element sourceUrl = some p
            ∧ p.rating = parseRating (extractTextFromSelectors doc element ratingSelectors)
            ∧ p.rating.isNonNegative = true
            ∧ (extractTextFromSelectors doc element ratingSelectors = none →
                p.rating = JSNumber.num 0)
            ∧ (ratingWithinScale (extractTextFromSelectors doc element ratingSelectors) = true →
                p.rating.leConst 5 = true) := by
  refine ⟨_, parseProductsFromHTML_of_ok _ _ _ doc h, ?_⟩
  intro p hp
  rcases scanSelectors_cases doc sourceUrl productSelectors with ⟨sel, hsel, hs⟩ | ⟨hs, _⟩
  · rw [hs] at hp
    obtain ⟨element, hmem, hx, _⟩ := mem_recordsOf doc sourceUrl sel p hp
    obtain ⟨_, _, hr⟩ := extractProductFromElement_fields doc element sourceUrl p hx
    refine ⟨sel, hsel, element, List.mem_of_mem_take hmem, hx, ?_⟩
    obtain ⟨hnonneg, hnone, hscale⟩ :=
      parseRatingAsSpecified_bounds (extractTextFromSelectors doc element ratingSelectors)
    rw [← parseRating_eq_parseRatingAsSpecified] at hnonneg hnone hscale
    have hrv : p.rating = parseRating (extractTextFromSelectors doc element ratingSelectors) := by
      rw [hr]
      exact orZero_of_isNonNegative _ hnonneg
    refine ⟨hrv, ?_, ?_, ?_⟩
    · rw [hrv]; exact hnonneg
    · intro hn; rw [hrv]; exact hnone hn
    · intro hsc; rw [hrv]; exact hscale hsc
  · rw [hs] at hp; simp at hp

/-- The rating bounds, at `ratingDoc`. -/
theorem parseProductsFromHTML_rating_bounds_witness :
    parserReturning ratingDoc ratingHtml = Except.ok ratingDoc
      ∧ ∃ products,
        parseProductsFromHTML (parserReturning ratingDoc) ratingHtml sampleUrl
            = Except.ok products
          ∧ ∀ p ∈ products, ∃ sel ∈ productSelectors,
              ∃ element ∈ ratingDoc.querySelectorAll sel,
              extractProductFromElement ratingDoc element sampleUrl = some p
                ∧ p.rating =
                  parseRating (extractTextFromSelectors ratingDoc element ratingSelectors)
                ∧ p.rating.isNonNegative = true
                ∧ (extractTextFromSelectors ratingDoc element ratingSelectors = none →
                    p.rating = JSNumber.num 0)
                ∧ (ratingWithinScale
                      (extractTextFromSelectors ratingDoc element ratingSelectors) = true →
                    p.rating.leConst 5 = true) :=
  ⟨rfl, parseProductsFromHTML_rating_bounds (parserReturning ratingDoc) ratingHtml sampleUrl
    ratingDoc rfl⟩

/-! ## C8: a failure of the platform parser is caught -/

/-- C8 (as stated, refuted): with a platform parser that throws on the text,
`parseProductsFromHTML` does not fail: it returns the empty list. -/
theorem parse_failure_counterexample :
    failingParser "<".toList = Except.error { message := "parse failure".toList }
      ∧ parseProductsFromHTML failingParser "<".toList sampleUrl = Except.ok [] :=
  ⟨rfl, rfl⟩

/-- C8 (amended): `parseProductsFromHTML` never fails towards its caller: every
outcome is a successful list, and a failure of the platform parser is caught
and turned into the empty list. -/
theorem parseProductsFromHTML_never_fails
    (parseFromString : JSString → Except JSError Document) (html sourceUrl : JSString) :
    (∃ products, parseProductsFromHTML parseFromString html sourceUrl = Except.ok products)
      ∧ ∀ e, parseFromString html = Except.error e →
          parseProductsFromHTML parseFromString html sourceUrl = Except.ok [] := by
  constructor
  · cases h : parseFromString html with
    | error e => exact ⟨[], by simp [parseProductsFromHTML, h]⟩
    | ok doc => exact ⟨_, parseProductsFromHTML_of_ok _ _ _ doc h⟩
  · intro e h
    simp [parseProductsFromHTML, h]

/-! ## C9: a price text without digits -/

/-- C9: `parsePrice` returns `0` for every text without a digit, for the empty
text and for an absent text, and on every input it returns a number that is
not `NaN`. -/
theorem parsePrice_without_digit :
    (∀ text : JSString, (∀ c ∈ text, c.isDigit = false) →
        parsePrice (some text) = JSNumber.num 0)
      ∧ parsePrice (some []) = JSNumber.num 0
      ∧ parsePrice none = JSNumber.num 0
      ∧ (∀ t : Option JSString, parsePrice t ≠ JSNumber.nan)
      ∧ parsePrice (some "Call for price, please.".toList) = JSNumber.num 0 := by
  have main : ∀ text : JSString, (∀ c ∈ text, c.isDigit = false) →
      parsePrice (some text) = JSNumber.num 0 := by
    intro text hno
    cases text with
    | nil => rfl
    | cons a l =>
      have hp : ∀ c ∈ replaceFirstComma (keepPriceChars (a :: l)), c = '.' ∨ c = ',' := by
        intro c hc
        have hmem : c ∈ keepPriceChars (a :: l) := List.mem_of_mem_erase hc
        unfold keepPriceChars at hmem
        obtain ⟨hin, hkeep⟩ := List.mem_filter.mp hmem
        have hd := hno c hin
        simpa [hd] using hkeep
      unfold parsePrice
      simp only
      rw [parseFloat_of_punctuation _ hp]
      rfl
  refine ⟨main, rfl, rfl, parsePrice_ne_nan, ?_⟩
  exact main _ (by decide)

/-! ## C10: no container, no record -/

/-- C10: when no pattern of the container chain matches any element of the
document, `parseProductsFromHTML` returns the empty list, as a successful
result. -/
theorem parseProductsFromHTML_no_container
    (parseFromString : JSString → Except JSError Document) (html sourceUrl : JSString)
    (doc : Document) (h : parseFromString html = Except.ok doc)
    (hno : ∀ sel ∈ productSelectors, doc.querySelectorAll sel = []) :
    parseProductsFromHTML parseFromString html sourceUrl = Except.ok [] := by
  rw [parseProductsFromHTML_of_ok _ _ _ doc h]
  rcases scanSelectors_cases doc sourceUrl productSelectors with ⟨sel, hsel, hs⟩ | ⟨hs, _⟩
  · rw [hs]
    simp [recordsOf, hno sel hsel]
  · rw [hs]

/-- C10, at `plainDoc`. -/
theorem parseProductsFromHTML_no_container_witness :
    parserReturning plainDoc plainHtml = Except.ok plainDoc
      ∧ (∀ sel ∈ productSelectors, plainDoc.querySelectorAll sel = [])
      ∧ parseProductsFromHTML (parserReturning plainDoc) plainHtml sampleUrl = Except.ok [] :=
  ⟨rfl, plainDoc_no_container,
    parseProductsFromHTML_no_container (parserReturning plainDoc) plainHtml sampleUrl plainDoc
      rfl plainDoc_no_container⟩

/-! ## C11: the page with product cards -/

/-- C11 (as stated, refuted), on three pages without `.product-item` element
whose `.product-card` elements are as the claim describes them. In
`twoPricesDoc` the one card holds a `.price` element with the text `$19.99`
after another `.price` element, and the record has the price 24.99. In
`twoHeadingsDoc` the one card holds an `h3` with text after an empty `h3`, and
no record is returned. In `productOnlyDoc` there is no card (`n = 0`), and one
record is returned, taken from a later pattern. -/
theorem product_cards_counterexample :
    ((twoPricesDoc.querySelectorAll (Selector.cls "product-item")).length = 0
        ∧ (productCards twoPricesDoc).length = 1
        ∧ (∀ card ∈ productCards twoPricesDoc, cardAsDescribed twoPricesDoc card)
        ∧ parseProductsFromHTML (parserReturning twoPricesDoc) twoPricesHtml sampleUrl
          = Except.ok [{ cardRecord "Lamp" with price := binary64 24.99 }])
      ∧ ((twoHeadingsDoc.querySelectorAll (Selector.cls "product-item")).length = 0
        ∧ (productCards twoHeadingsDoc).length = 1
        ∧ (∀ card ∈ productCards twoHeadingsDoc, cardAsDescribed twoHeadingsDoc card)
        ∧ parseProductsFromHTML (parserReturning twoHeadingsDoc) twoHeadingsHtml sampleUrl
          = Except.ok [])
      ∧ ((productOnlyDoc.querySelectorAll (Selector.cls "product-item")).length = 0
        ∧ (productCards productOnlyDoc).length = 0
        ∧ (∀ card ∈ productCards productOnlyDoc, cardAsDescribed productOnlyDoc card)
        ∧ parseProductsFromHTML (parserReturning productOnlyDoc) productOnlyHtml sampleUrl
          = Except.ok [cardRecord "Lamp"]) := by
  refine ⟨⟨by decide, by decide, by decide, by decide!⟩,
    ⟨by decide, by decide, by decide, by decide!⟩,
    ⟨by decide, by decide, by decide, by decide!⟩⟩

/-- C11 (amended): for a document with `n` elements matching `.product-card`,
`1 ≤ n ≤ 20`, and none matching `.product-item`, where in each card the first
`h3` has non-empty text, the first `.price` element has the text `$19.99` and
no element matches a rating pattern, `parseProductsFromHTML` returns exactly
`n` records, the records extracted from the cards in document order, each
with the price 19.99 and the rating 0. -/
theorem parseProductsFromHTML_product_cards
    (parseFromString : JSString → Except JSError Document) (html sourceUrl : JSString)
    (doc : Document) (n : ℕ) (h : parseFromString html = Except.ok doc)
    (hitem : (doc.querySelectorAll (Selector.cls "product-item")).length = 0)
    (hn : (productCards doc).length = n) (h1 : 1 ≤ n) (h20 : n ≤ 20)
    (hcards : ∀ card ∈ productCards doc, cardFirstMatches doc card) :
    ∃ products, parseProductsFromHTML parseFromString html sourceUrl = Except.ok products
      ∧ products.length = n
      ∧ products.map some =
        (productCards doc).map (fun card => extractProductFromElement doc card sourceUrl)
      ∧ ∀ p ∈ products, p.price = binary64 19.99 ∧ p.rating = JSNumber.num 0 := by
  have hcard : ∀ card ∈ productCards doc,
      ∃ p, extractProductFromElement doc card sourceUrl = some p
        ∧ isAccepted (some p) = true
        ∧ p.price = binary64 19.99 ∧ p.rating = JSNumber.num 0 := by
    intro card hc
    obtain ⟨ha, hb, hc'⟩ := hcards card hc
    exact extractProductFromElement_card doc card sourceUrl ha hb hc'
  have hacc : ∀ card ∈ productCards doc,
      acceptedRecord doc sourceUrl card = extractProductFromElement doc card sourceUrl := by
    intro card hc
    obtain ⟨p, hx, ha, _⟩ := hcard card hc
    simp [acceptedRecord, hx, Option.filter, ha]
  have hsome : ∀ card ∈ productCards doc,
      (acceptedRecord doc sourceUrl card).isSome = true := by
    intro card hc
    obtain ⟨p, hx, _⟩ := hcard card hc
    rw [hacc card hc, hx]
    rfl
  have hitem' : recordsOf doc sourceUrl (Selector.cls "product-item") = [] := by
    have : doc.querySelectorAll (Selector.cls "product-item") = [] :=
      List.length_eq_zero.mp hitem
    simp [recordsOf, this]
  have hrec : recordsOf doc sourceUrl (Selector.cls "product-card") =
      (productCards doc).filterMap (acceptedRecord doc sourceUrl) := by
    unfold recordsOf
    have : (doc.querySelectorAll (Selector.cls "product-card")).take 20 = productCards doc :=
      List.take_of_length_le (by unfold productCards at hn; omega)
    rw [this]
  have hmap : (recordsOf doc sourceUrl (Selector.cls "product-card")).map some =
      (productCards doc).map (fun card => extractProductFromElement doc card sourceUrl) := by
    rw [hrec, filterMap_map_some _ _ hsome]
    exact List.map_congr_left hacc
  have hlen : (recordsOf doc sourceUrl (Selector.cls "product-card")).length = n := by
    have := congrArg List.length hmap
    simpa [hn] using this
  have hne : (recordsOf doc sourceUrl (Selector.cls "product-card")).isEmpty = false := by
    cases hl : recordsOf doc sourceUrl (Selector.cls "product-card") with
    | nil => rw [hl] at hlen; simp at hlen; omega
    | cons a l => rfl
  refine ⟨recordsOf doc sourceUrl (Selector.cls "product-card"), ?_, hlen, hmap, ?_⟩
  · rw [parseProductsFromHTML_of_ok _ _ _ doc h, scanSelectors_eq_find]
    simp [productSelectors, List.find?_cons, hitem', hne]
  · intro p hp
    rw [hrec] at hp
    obtain ⟨card, hc, hpc⟩ := List.mem_filterMap.mp hp
    obtain ⟨q, hx, _, hq1, hq2⟩ := hcard card hc
    rw [hacc card hc, hx] at hpc
    have : q = p := Option.some.inj hpc
    subst this
    exact ⟨hq1, hq2⟩

/-- C11 (amended), at the page of the specification with three cards. -/
theorem parseProductsFromHTML_product_cards_witness :
    parserReturning threeCardsDoc threeCardsHtml = Except.ok threeCardsDoc
      ∧ (threeCardsDoc.querySelectorAll (Selector.cls "product-item")).length = 0
      ∧ (productCards threeCardsDoc).length = 3
      ∧ (∀ card ∈ productCards threeCardsDoc, cardFirstMatches threeCardsDoc card)
      ∧ ∃ products,
        parseProductsFromHTML (parserReturning threeCardsDoc) threeCardsHtml sampleUrl
            = Except.ok products
          ∧ products.length = 3
          ∧ products.map some =
            (productCards threeCardsDoc).map
              (fun card => extractProductFromElement threeCardsDoc card sampleUrl)
          ∧ ∀ p ∈ products, p.price = binary64 19.99 ∧ p.rating = JSNumber.num 0 :=
  ⟨rfl, by decide, by decide, by decide,
    parseProductsFromHTML_product_cards (parserReturning threeCardsDoc) threeCardsHtml
      sampleUrl threeCardsDoc 3 rfl (by decide) (by decide) (by decide) (by decide)
      (by decide)⟩

/-! ## C12: the image of a record -/

/-- C12 (the code departs from the claim): for a container without image
element the record has no `imageUrl` at all (the property is never assigned),
not the empty string; so it is for the tile `cardTile "Lamp"`. The second part
of the claim holds: when the first image has neither a `src` nor a `data-src`
attribute, `imageUrl` is the empty string, as for `bareImageTile`. -/
theorem imageUrl_without_image_element :
    (∀ (doc : Document) (element : Node) (sourceUrl : JSString) (p : Product),
        extractProductFromElement doc element sourceUrl = some p →
        element.querySelector doc (Selector.tag "img") = none → p.imageUrl = none)
      ∧ (∀ (doc : Document) (element img : Node) (sourceUrl : JSString) (p : Product),
        extractProductFromElement doc element sourceUrl = some p →
        element.querySelector doc (Selector.tag "img") = some img →
        img.getAttribute "src".toList = none → img.getAttribute "data-src".toList = none →
        p.imageUrl = some [])
      ∧ ((cardTile "Lamp").querySelector threeCardsDoc (Selector.tag "img")).isNone = true
      ∧ extractProductFromElement threeCardsDoc (cardTile "Lamp") sampleUrl
        = some (cardRecord "Lamp")
      ∧ (cardRecord "Lamp").imageUrl = none
      ∧ (extractProductFromElement threeCardsDoc bareImageTile sampleUrl).map Product.imageUrl
        = some (some []) := by
  refine ⟨?_, ?_, by decide, by decide!, rfl, by decide⟩
  · intro doc element sourceUrl p hx hq
    rw [extractProductFromElement_imageUrl doc element sourceUrl p hx, hq]
    rfl
  · intro doc element img sourceUrl p hx hq hsrc hdata
    rw [extractProductFromElement_imageUrl doc element sourceUrl p hx, hq]
    show some (imageUrlOf doc img) = some []
    unfold imageUrlOf imageSrc
    rw [hsrc, hdata]
    rfl

/-! ## C13: the text of the first match of each pattern -/

/-- C13 (as stated, refuted): the tile `twoHeadingsTile` has two descendants
matching `h3`, with the trimmed texts `""` and `"Lamp"`; the first non-empty
text among the matching descendants is `"Lamp"`, and `extractTextFromSelectors`
returns `null`. -/
theorem extractText_counterexample :
    matchingTexts twoHeadingsDoc twoHeadingsTile (Selector.tag "h3") = [[], "Lamp".toList]
      ∧ extractTextAsSpecified twoHeadingsDoc twoHeadingsTile [Selector.tag "h3"]
        = some "Lamp".toList
      ∧ extractTextFromSelectors twoHeadingsDoc twoHeadingsTile [Selector.tag "h3"] = none := by
  decide

/-- C13 (amended): `extractTextFromSelectors` tries the patterns in listed
order and looks, for each pattern, at the first descendant of the container
that matches it only: it returns the trimmed text of the first pattern whose
first match has a non-empty trimmed text. A returned text is non-empty,
trimmed, and the text of a descendant of the container that matches a listed
pattern; `null` is returned exactly when no pattern has a first match with
non-empty trimmed text. -/
theorem extractTextFromSelectors_first_matches (doc : Document) (element : Node)
    (selectors : List Selector) :
    extractTextFromSelectors doc element selectors =
        selectors.findSome? (firstMatchText doc element)
      ∧ (∀ s, extractTextFromSelectors doc element selectors = some s →
          s ≠ [] ∧ trim s = s
            ∧ ∃ sel ∈ selectors, ∃ found ∈ element.descendantElements,
                sel.isMatchedBy doc found = true ∧ s = trim found.textContent)
      ∧ (extractTextFromSelectors doc element selectors = none ↔
          ∀ sel ∈ selectors, firstMatchText doc element sel = none) := by
  refine ⟨extractTextFromSelectors_eq_findSome doc element selectors, ?_, ?_⟩
  · intro s hs
    obtain ⟨hne, htrim⟩ := extractTextFromSelectors_some doc element selectors s hs
    refine ⟨hne, htrim, ?_⟩
    rw [extractTextFromSelectors_eq_findSome] at hs
    obtain ⟨sel, hsel, hf⟩ := List.exists_of_findSome?_eq_some hs
    exact ⟨sel, hsel, firstMatchText_some doc element sel s hf⟩
  · rw [extractTextFromSelectors_eq_findSome]
    exact List.findSome?_eq_none_iff

/-! ## C14: the star display of a rating in range -/

/-- C14: for every rating `r` with `0 ≤ r ≤ 5` both repeat counts of
`generateStars` are natural numbers, the first one `floor(r)`, so no
`RangeError` is raised, and the result has exactly 5 glyphs: `floor(r)` filled
stars followed by `5 - floor(r)` hollow stars. -/
theorem generateStars_rating_in_range (q : ℚ) (h0 : 0 ≤ q) (h5 : q ≤ 5) :
    ∃ full empty : ℕ, (full : ℤ) = ⌊q⌋
      ∧ fullStars (JSNumber.num q) = JSNumber.num ((full : ℤ) : ℚ)
      ∧ emptyStars (JSNumber.num q) = JSNumber.num ((empty : ℤ) : ℚ)
      ∧ generateStars (JSNumber.num q) =
          Except.ok (List.replicate full '★' ++ List.replicate (5 - full) '☆')
      ∧ (List.replicate full '★' ++ List.replicate (5 - full) '☆').length = 5 := by
  obtain ⟨n, hn, hn5, hfull, ⟨e, he⟩, hgen⟩ := generateStars_of_floor q h0 h5
  refine ⟨n, e, hn, hfull, he, hgen, ?_⟩
  simp
  omega

/-- C14, at the rating 4.5. -/
theorem generateStars_rating_in_range_witness :
    (0 : ℚ) ≤ 4.5 ∧ (4.5 : ℚ) ≤ 5
      ∧ ∃ full empty : ℕ, (full : ℤ) = ⌊(4.5 : ℚ)⌋
        ∧ fullStars (JSNumber.num 4.5) = JSNumber.num ((full : ℤ) : ℚ)
        ∧ emptyStars (JSNumber.num 4.5) = JSNumber.num ((empty : ℤ) : ℚ)
        ∧ generateStars (JSNumber.num 4.5) =
            Except.ok (List.replicate full '★' ++ List.replicate (5 - full) '☆')
        ∧ (List.replicate full '★' ++ List.replicate (5 - full) '☆').length = 5 :=
  ⟨by norm_num, by norm_num, generateStars_rating_in_range 4.5 (by norm_num) (by norm_num)⟩

end ProductScraper
